import Mathlib

/-!
# fastac: rule store and enforce pipeline

A shallow embedding of `model/policy/policy.go` (the rule store) and of
`enforcer.go` (construction, enforce and filter entry points), followed by
the properties proved about them.

Conventions of the embedding:

* a Go method with a pointer receiver becomes a function that takes the
  receiver and returns the updated receiver next to the Go results;
* a Go `error` result is an `Option Error` (`none` is `nil`);
* a Go map is a `Finmap`: finite, at most one entry per key, no order;
* the event emitter of a `Policy` is represented by the sequence of events
  it has emitted so far, oldest first.
-/

namespace Fastac

/-! ## Basic types -/

/-- A rule, `types.Rule`: a sequence of strings. -/
abbrev Rule := List String

/-- An effect, `types.Effect`, with the three values of package `eft`. -/
inductive Effect where
  | Allow
  | Indeterminate
  | Deny
deriving DecidableEq, Repr

/-- Go `error` values that occur in the embedded code.  The three
`*_NOT_FOUND` constructors stand for `fmt.Errorf(str.ERR_..._NOT_FOUND, key)`,
`INVALID_MODEL` for `errors.New(str.ERR_INVALID_MODEL)`, `NOT_IMPLEMENTED`
for the error of `FileAdapter.SavePolicy`; `other` is any error produced by
code outside the embedded files (expression compiler, effector, file
system). -/
inductive Error where
  | MATCHER_NOT_FOUND (key : String)
  | REQUESTDEF_NOT_FOUND (key : String)
  | EFFECTOR_NOT_FOUND (key : String)
  | INVALID_MODEL
  | NOT_IMPLEMENTED
  | other (msg : String)
deriving DecidableEq, Repr

/-- Events of the rule store: `EVT_RULE_ADDED` and `EVT_RULE_REMOVED` carry
the rule passed to `EmitEvent`, `EVT_CLEARED` carries nothing. -/
inductive Event where
  | RULE_ADDED (rule : Rule)
  | RULE_REMOVED (rule : Rule)
  | CLEARED
deriving DecidableEq, Repr

/-- Modelled from the spec: `defs.PolicyDef` is not among the source files.
It is an ordered list of attribute names together with the effect of a rule
(`GetEft`), which the enforcer only calls and never inspects. -/
structure PolicyDef where
  attrs : List String
  GetEft : Rule → Effect

/-- The arity of a policy definition: its number of attributes. -/
def PolicyDef.arity (d : PolicyDef) : Nat := d.attrs.length

/-- Modelled from the spec: the column-count condition of the data model,
"length equal to the arity of the policy definition (plus at most one
trailing eft column)". -/
def PolicyDef.admits (d : PolicyDef) (rule : Rule) : Prop :=
  rule.length = d.arity ∨ rule.length = d.arity + 1

instance (d : PolicyDef) (rule : Rule) : Decidable (d.admits rule) := by
  unfold PolicyDef.admits; infer_instance

/-! ## The rule store (`model/policy/policy.go`) -/

/-- The map `ruleMap map[string]types.Rule`. -/
abbrev RuleMap := Finmap (fun _ : String => Rule)

/-- The struct `Policy`: the rule map, the embedded emitter (the events
emitted so far) and the embedded policy definition. -/
structure Policy where
  ruleMap : RuleMap
  emitted : List Event
  pDef : PolicyDef

namespace Policy

/-- `NewPolicy`: an empty rule map and a fresh emitter. -/
def NewPolicy (pDef : PolicyDef) : Policy :=
  { ruleMap := ∅, emitted := [], pDef := pDef }

/-- `Emitter.EmitEvent`: the event is delivered before the call returns; it
is appended to the sequence of emitted events. -/
def EmitEvent (p : Policy) (e : Event) : Policy :=
  { p with emitted := p.emitted ++ [e] }

/-- `Policy.AddRule`.  `Hash` is `util.Hash`, which is not among the source
files and is taken as a parameter.  Returns the updated policy and the Go
results `(bool, error)`. -/
def AddRule (Hash : Rule → String) (p : Policy) (rule : Rule) :
    Policy × Bool × Option Error :=
  let key := Hash rule
  if key ∈ p.ruleMap then
    (p, false, none)
  else
    let p1 := { p with ruleMap := p.ruleMap.insert key rule }
    (p1.EmitEvent (Event.RULE_ADDED rule), true, none)

/-- `Policy.RemoveRule`, with `Hash` as in `AddRule`. -/
def RemoveRule (Hash : Rule → String) (p : Policy) (rule : Rule) :
    Policy × Bool × Option Error :=
  let key := Hash rule
  if key ∈ p.ruleMap then
    let p1 := { p with ruleMap := p.ruleMap.erase key }
    (p1.EmitEvent (Event.RULE_REMOVED rule), true, none)
  else
    (p, false, none)

/-- `Policy.Clear`. -/
def Clear (p : Policy) : Policy × Option Error :=
  (({ p with ruleMap := ∅ } : Policy).EmitEvent Event.CLEARED, none)

/-- Every entry of the rule map is stored under the hash of its rule: the
representation invariant of a store built by `NewPolicy`, `AddRule`,
`RemoveRule` and `Clear`. -/
def KeyedByHash (Hash : Rule → String) (p : Policy) : Prop :=
  ∀ k v, p.ruleMap.lookup k = some v → Hash v = k

/-- The rule `r` is stored in `p` (under its hash). -/
def Stores (Hash : Rule → String) (p : Policy) (r : Rule) : Prop :=
  p.ruleMap.lookup (Hash r) = some r

/-- The hash of `r` does not collide with the hash of a different rule held
by `p`. -/
def NoCollision (Hash : Rule → String) (p : Policy) (r : Rule) : Prop :=
  ∀ v, p.ruleMap.lookup (Hash r) = some v → v = r

/-- Every stored rule has a column count admitted by the policy
definition. -/
def ColumnsOk (p : Policy) : Prop :=
  ∀ k v, p.ruleMap.lookup k = some v → p.pDef.admits v

end Policy

/-! ## Definitions used by the enforcer -/

/-- A request value (`interface{}` in the source).  The enforcer hands
request values to the matcher and never inspects them. -/
abbrev Value := String

/-- Modelled from the spec: `defs.RequestDef` is not among the source files.
It is an ordered list of attribute names. -/
structure RequestDef where
  attrs : List String
deriving DecidableEq, Repr

/-- The interface `effector.Effector`, whose implementations are not among
the source files: `MergeEffects(effects, matches, complete)` returns
`(decision, explainingIndex, err)`. -/
structure Effector where
  MergeEffects : List Effect → List Rule → Bool → Effect × Int × Option Error

/-- Modelled from the spec: `matcher.Matcher` is not among the source files.
A matcher is bound to one policy definition (`GetPolicy`); for a request it
presents a sequence of candidate rules (all rules of the store, or those
selected by its index, in the order of this traversal) and evaluates its
expression on each of them, which gives `true`, `false` or an error. -/
structure Matcher where
  policy : PolicyDef
  candidates : RequestDef → List Value → List Rule
  eval : RequestDef → List Value → Rule → Except Error Bool

/-- `Matcher.GetPolicy`. -/
def Matcher.GetPolicy (m : Matcher) : PolicyDef := m.policy

/-- Modelled from the spec: the traversal of `RangeMatches` over a list of
candidates.  Each candidate is evaluated; an evaluation error ends the
traversal with that error; on `true` the callback `fn` is invoked with the
rule, and the traversal stops without error when `fn` returns `false`.
The callback acts on a state `σ` (the variables its closure captures). -/
def Matcher.rangeFrom {σ : Type} (eval : Rule → Except Error Bool)
    (fn : σ → Rule → σ × Bool) : List Rule → σ → σ × Option Error
  | [], s => (s, none)
  | c :: cs, s =>
    match eval c with
    | Except.error err => (s, some err)
    | Except.ok false => Matcher.rangeFrom eval fn cs s
    | Except.ok true =>
      if (fn s c).2 then Matcher.rangeFrom eval fn cs (fn s c).1
      else ((fn s c).1, none)

/-- The rules a traversal of the candidates yields when it is never
stopped: the candidates, up to the first evaluation error, on which the
expression is `true`. -/
def Matcher.yieldsFrom (eval : Rule → Except Error Bool) : List Rule → List Rule
  | [] => []
  | c :: cs =>
    match eval c with
    | Except.error _ => []
    | Except.ok false => Matcher.yieldsFrom eval cs
    | Except.ok true => c :: Matcher.yieldsFrom eval cs

/-- The error with which a traversal of the candidates ends when it is
never stopped: the first evaluation error, if any. -/
def Matcher.errorFrom (eval : Rule → Except Error Bool) : List Rule → Option Error
  | [] => none
  | c :: cs =>
    match eval c with
    | Except.error err => some err
    | Except.ok _ => Matcher.errorFrom eval cs

/-- The rules the matcher yields for a request, in order. -/
def Matcher.yields (m : Matcher) (rDef : RequestDef) (rvals : List Value) : List Rule :=
  Matcher.yieldsFrom (m.eval rDef rvals) (m.candidates rDef rvals)

/-- The error of an unstopped traversal for a request. -/
def Matcher.rangeError (m : Matcher) (rDef : RequestDef) (rvals : List Value) :
    Option Error :=
  Matcher.errorFrom (m.eval rDef rvals) (m.candidates rDef rvals)

/-- Modelled from the spec: `model.Model` is not among the source files.
It is a container keyed by section key: the definition set (section letter
and key to definition text), and the request definitions, matchers and
effectors built from it.  The parsers and the expression compiler it uses
are fields.  Policy and role sections are recorded in the definition set
only: the embedded functions reach rules only through a matcher. -/
structure Model where
  defs : Finmap (fun _ : Char × String => String)
  requestDefs : Finmap (fun _ : String => RequestDef)
  matchers : Finmap (fun _ : String => Matcher)
  effectors : Finmap (fun _ : String => Effector)
  parseRequestDef : String → Except Error RequestDef
  parseEffector : String → Except Error Effector
  compile : String → Except Error Matcher

namespace Model

/-- Modelled from the spec: `Model.GetMatcher`, a lookup by key; `none` is
`ok = false`. -/
def GetMatcher (m : Model) (key : String) : Option Matcher := m.matchers.lookup key

/-- Modelled from the spec: `Model.GetRequestDef`, a lookup by key. -/
def GetRequestDef (m : Model) (key : String) : Option RequestDef :=
  m.requestDefs.lookup key

/-- Modelled from the spec: `Model.GetEffector`, a lookup by key. -/
def GetEffector (m : Model) (key : String) : Option Effector := m.effectors.lookup key

/-- Modelled from the spec: `Model.AddDef(letter, key, text)` mutates the
definition set.  A request definition or an effector is built at once and
a text its parser rejects leaves the model unchanged; a matcher definition
is recorded and compiled by `BuildMatcher`. -/
def AddDef (m : Model) (sec : Char) (key : String) (value : String) :
    Model × Option Error :=
  if sec = 'r' then
    match m.parseRequestDef value with
    | Except.error err => (m, some err)
    | Except.ok d =>
      ({ m with defs := m.defs.insert (sec, key) value,
                requestDefs := m.requestDefs.insert key d }, none)
  else if sec = 'e' then
    match m.parseEffector value with
    | Except.error err => (m, some err)
    | Except.ok d =>
      ({ m with defs := m.defs.insert (sec, key) value,
                effectors := m.effectors.insert key d }, none)
  else
    ({ m with defs := m.defs.insert (sec, key) value }, none)

/-- Modelled from the spec: `Model.BuildMatcher(key)` compiles the matcher
definition `key`.  Without such a definition, or when the compiler rejects
the text, it returns the error and stores no matcher. -/
def BuildMatcher (m : Model) (key : String) : Model × Option Error :=
  match m.defs.lookup ('m', key) with
  | none => (m, some (Error.MATCHER_NOT_FOUND key))
  | some text =>
    match m.compile text with
    | Except.error err => (m, some err)
    | Except.ok mt => ({ m with matchers := m.matchers.insert key mt }, none)

/-- Modelled from the spec: `Model.RemoveDef(letter, key)` mutates the
definition set: the definition `(letter, key)` is removed from it. -/
def RemoveDef (m : Model) (sec : Char) (key : String) : Model :=
  { m with defs := m.defs.erase (sec, key) }

/-- Modelled from the spec: `Model.RangeMatches(matcher, rDef, rvals, fn)`,
the traversal of the candidates of the matcher for the request. -/
def RangeMatches {σ : Type} (_m : Model) (matcher : Matcher) (rDef : RequestDef)
    (rvals : List Value) (fn : σ → Rule → σ × Bool) (s : σ) : σ × Option Error :=
  Matcher.rangeFrom (matcher.eval rDef rvals) fn (matcher.candidates rDef rvals) s

end Model

/-! ## Storage adapters (`adapter/fileadapter.go`) -/

/-- What the file adapter needs from outside the embedded files:
`readLines path` is `os.Open` followed by scanning the lines (an error of
`os.Open`, or the lines scanned together with `scanner.Err()`), and
`LoadPolicyLine` loads one line into the model.  `NewModelFromFile` is the
model loader of `NewEnforcer`, and `storageEnabled` says whether a new
storage controller starts enabled. -/
structure World where
  NewModelFromFile : String → Except Error Model
  readLines : String → Except Error (List String × Option Error)
  LoadPolicyLine : String → Model → Model
  storageEnabled : Bool

/-- A value of the interface `a.Adapter`: a `FileAdapter`, the `NoopAdapter`
or another implementation, given by its two methods. -/
inductive Adapter where
  | file (path : String)
  | noop
  | custom (load : Model → Model × Option Error) (save : Model → Option Error)

/-- `NewFileAdapter`. -/
def NewFileAdapter (path : String) : Adapter := Adapter.file path

/-- `Adapter.LoadPolicy`.  For the file adapter this is
`FileAdapter.LoadPolicy`; the no-op adapter does nothing (modelled from the
spec). -/
def Adapter.LoadPolicy (w : World) : Adapter → Model → Model × Option Error
  | Adapter.file path, m =>
    match w.readLines path with
    | Except.error err => (m, some err)
    | Except.ok (lines, scanErr) =>
      (lines.foldl (fun acc line => w.LoadPolicyLine line acc) m, scanErr)
  | Adapter.noop, m => (m, none)
  | Adapter.custom load _, m => load m

/-- `Adapter.SavePolicy`.  For the file adapter this is
`FileAdapter.SavePolicy`, which is not implemented. -/
def Adapter.SavePolicy : Adapter → Model → Option Error
  | Adapter.file _, _ => some Error.NOT_IMPLEMENTED
  | Adapter.noop, _ => none
  | Adapter.custom _ save, m => save m

/-- Modelled from the spec: `storage.StorageController` is not among the
source files.  It holds the adapter it saves to (`none` is a nil adapter)
and its two switches. -/
structure StorageController where
  adapter : Option Adapter
  enabled : Bool
  autosave : Bool

/-- Modelled from the spec: `storage.NewStorageController`. -/
def NewStorageController (w : World) (_m : Model) (adapter : Option Adapter)
    (autosave : Bool) : StorageController :=
  { adapter := adapter, enabled := w.storageEnabled, autosave := autosave }

/-! ## The enforcer (`enforcer.go`) -/

/-- The struct `Enforcer`.  `adapter = none` is the nil interface value and
`sc = none` the nil pointer. -/
structure Enforcer where
  model : Model
  adapter : Option Adapter
  sc : Option StorageController

/-- The result of a Go call that may stop with a run-time failure: it
returns, or it dereferences nil. -/
inductive Outcome (α : Type) where
  | returns (a : α)
  | nilDereference

/-- The type `Option` of the source: a function on the enforcer that returns
an error. -/
abbrev EnforcerOption := Enforcer → Outcome (Enforcer × Option Error)

/-- `OptionAutosave`. -/
def OptionAutosave (autosave : Bool) : EnforcerOption := fun e =>
  match e.sc with
  | none => Outcome.nilDereference
  | some sc => Outcome.returns ({ e with sc := some { sc with autosave := autosave } }, none)

/-- `OptionStorage`. -/
def OptionStorage (enable : Bool) : EnforcerOption := fun e =>
  match e.sc with
  | none => Outcome.nilDereference
  | some sc => Outcome.returns ({ e with sc := some { sc with enabled := enable } }, none)

/-- The first argument of `NewEnforcer`, an `interface{}`: a path, a
`Model`, a `*Model`, or anything else. -/
inductive ModelArg where
  | path (p : String)
  | value (m : Model)
  | pointer (m : Model)
  | other

/-- The second argument of `NewEnforcer`, an `interface{}`: a path, a value
that implements `Adapter`, or anything else. -/
inductive AdapterArg where
  | path (p : String)
  | adapter (a : Adapter)
  | other

namespace Enforcer

/-- `Enforcer.SetAdapter`. -/
def SetAdapter (w : World) (e : Enforcer) (adapter : Option Adapter) : Enforcer :=
  let autosave := match e.sc with
    | none => false
    | some sc => sc.autosave
  { e with sc := some (NewStorageController w e.model adapter autosave),
           adapter := adapter }

/-- The loop `for _, option := range options` of `NewEnforcer`. -/
def applyOptions : List EnforcerOption → Enforcer → Outcome (Except Error Enforcer)
  | [], e => Outcome.returns (Except.ok e)
  | option :: rest, e =>
    match option e with
    | Outcome.nilDereference => Outcome.nilDereference
    | Outcome.returns (_, some err) => Outcome.returns (Except.error err)
    | Outcome.returns (e1, none) => applyOptions rest e1

/-- The second half of `NewEnforcer`, from `var a2 a.Adapter` on, for an
enforcer whose model is set.  In the `string` case the file adapter is
bound to a new variable `a2` declared by `:=` inside the case, so the outer
`a2`, which `SetAdapter` receives, keeps its zero value nil. -/
def newEnforcerWithModel (w : World) (m : Model) (adapter : AdapterArg)
    (options : List EnforcerOption) : Outcome (Except Error Enforcer) :=
  let e : Enforcer := { model := m, adapter := none, sc := none }
  match adapter with
  | AdapterArg.path p =>
    let inner := NewFileAdapter p
    match inner.LoadPolicy w e.model with
    | (_, some err) => Outcome.returns (Except.error err)
    | (m1, none) =>
      applyOptions options (SetAdapter w { e with model := m1 } none)
  | AdapterArg.adapter a =>
    applyOptions options (SetAdapter w e (some a))
  | AdapterArg.other =>
    applyOptions (options ++ [OptionStorage false]) (SetAdapter w e (some Adapter.noop))

/-- `NewEnforcer`. -/
def NewEnforcer (w : World) (model : ModelArg) (adapter : AdapterArg)
    (options : List EnforcerOption) : Outcome (Except Error Enforcer) :=
  match model with
  | ModelArg.path p =>
    match w.NewModelFromFile p with
    | Except.error err => Outcome.returns (Except.error err)
    | Except.ok m => newEnforcerWithModel w m adapter options
  | ModelArg.value m => newEnforcerWithModel w m adapter options
  | ModelArg.pointer m => newEnforcerWithModel w m adapter options
  | ModelArg.other => Outcome.returns (Except.error Error.INVALID_MODEL)

/-- `Enforcer.LoadPolicy`: the storage controller is disabled during the
load and enabled again afterwards if it was enabled. -/
def LoadPolicy (w : World) (e : Enforcer) : Outcome (Enforcer × Option Error) :=
  match e.sc with
  | none => Outcome.nilDereference
  | some _ =>
    match e.adapter with
    | none => Outcome.nilDereference
    | some a => Outcome.returns ({ e with model := (a.LoadPolicy w e.model).1 },
        (a.LoadPolicy w e.model).2)

/-- `Enforcer.SavePolicy`. -/
def SavePolicy (e : Enforcer) : Outcome (Option Error) :=
  match e.adapter with
  | none => Outcome.nilDereference
  | some a => Outcome.returns (a.SavePolicy e.model)

/-- `Enforcer.RangeMatches`. -/
def RangeMatches {σ : Type} (e : Enforcer) (matcher : Matcher) (rDef : RequestDef)
    (rvals : List Value) (fn : σ → Rule → σ × Bool) (s : σ) : σ × Option Error :=
  e.model.RangeMatches matcher rDef rvals fn s

/-- `Enforcer.RangeMatchesWithKeys`. -/
def RangeMatchesWithKeys {σ : Type} (e : Enforcer) (mKey rKey : String)
    (rvals : List Value) (fn : σ → Rule → σ × Bool) (s : σ) : σ × Option Error :=
  match e.model.GetMatcher mKey with
  | none => (s, some (Error.MATCHER_NOT_FOUND mKey))
  | some matcher =>
    match e.model.GetRequestDef rKey with
    | none => (s, some (Error.REQUESTDEF_NOT_FOUND rKey))
    | some rDef => e.RangeMatches matcher rDef rvals fn s

/-- The callback of `FilterWithKeys`: append the rule, go on. -/
def filterCallback (rules : List Rule) (rule : Rule) : List Rule × Bool :=
  (rules ++ [rule], true)

/-- `Enforcer.FilterWithKeys`. -/
def FilterWithKeys (e : Enforcer) (mKey rKey : String) (rvals : List Value) :
    List Rule × Option Error :=
  e.RangeMatchesWithKeys mKey rKey rvals filterCallback []

/-- `Enforcer.Filter`. -/
def Filter (e : Enforcer) (rvals : List Value) : List Rule × Option Error :=
  e.FilterWithKeys "m" "r" rvals

/-- `Enforcer.FilterWithMatcherAndKeys`: the results of `AddDef` and
`BuildMatcher` are dropped, and the deferred `RemoveDef` runs after the
result is computed.  Returns the enforcer as the call leaves it and the Go
results. -/
def FilterWithMatcherAndKeys (e : Enforcer) (matcher : String) (rKey : String)
    (rvals : List Value) : Enforcer × (List Rule × Option Error) :=
  let mKey := "m9999"
  let m1 := (e.model.AddDef 'm' mKey matcher).1
  let m2 := (m1.BuildMatcher mKey).1
  let e2 := { e with model := m2 }
  ({ e2 with model := m2.RemoveDef 'm' mKey }, e2.FilterWithKeys mKey rKey rvals)

/-- One call of `MergeEffects`: its three arguments. -/
abbrev MergeCall := List Effect × List Rule × Bool

/-- The variables captured by the callback of `enforce`, and what the
callback has done so far: `merges` lists the calls of `MergeEffects` in
order. -/
structure EnforceState where
  res : Effect
  effects : List Effect
  matched : List Rule
  eftErr : Option Error
  merges : List MergeCall

/-- The result of an enforce call: the Go results `ok` and `err`, and what
the call did: the rules its callback was invoked with (`visited`) and its
calls of `MergeEffects` (`merges`), both in order. -/
structure EnforceResult where
  ok : Bool
  err : Option Error
  visited : List Rule
  merges : List MergeCall
deriving DecidableEq, Repr

/-- The callback of `enforce`. -/
def enforceCallback (pDef : PolicyDef) (effector : Effector) (s : EnforceState)
    (rule : Rule) : EnforceState × Bool :=
  let effect := pDef.GetEft rule
  let effects := s.effects ++ [effect]
  let matched := s.matched ++ [rule]
  let r := effector.MergeEffects effects matched false
  let s1 : EnforceState :=
    { res := r.1, effects := effects, matched := matched, eftErr := r.2.2,
      merges := s.merges ++ [(effects, matched, false)] }
  if r.2.2 ≠ none ∨ r.1 ≠ Effect.Indeterminate then (s1, false) else (s1, true)

/-- The variables of `enforce` before the traversal. -/
def enforceInit : EnforceState :=
  { res := Effect.Indeterminate, effects := [], matched := [], eftErr := none,
    merges := [] }

/-- `Enforcer.enforce`.  After the traversal a non-nil `eftErr` makes the
function return `false, err`, where `err` is the nil result of
`RangeMatches`. -/
def enforce (e : Enforcer) (matcher : Matcher) (rDef : RequestDef)
    (effector : Effector) (rvals : List Value) : EnforceResult :=
  let pDef := matcher.GetPolicy
  let out := e.RangeMatches matcher rDef rvals (enforceCallback pDef effector) enforceInit
  let s := out.1
  let err := out.2
  if err ≠ none then
    { ok := false, err := err, visited := s.matched, merges := s.merges }
  else if s.eftErr ≠ none then
    { ok := false, err := err, visited := s.matched, merges := s.merges }
  else if s.res = Effect.Indeterminate then
    { ok := decide ((effector.MergeEffects s.effects s.matched true).1 = Effect.Allow),
      err := none, visited := s.matched,
      merges := s.merges ++ [(s.effects, s.matched, true)] }
  else
    { ok := decide (s.res = Effect.Allow), err := none, visited := s.matched,
      merges := s.merges }

/-- `Enforcer.EnforceWithKeys`. -/
def EnforceWithKeys (e : Enforcer) (mKey rKey eKey : String) (rvals : List Value) :
    EnforceResult :=
  match e.model.GetMatcher mKey with
  | none =>
    { ok := false, err := some (Error.MATCHER_NOT_FOUND mKey), visited := [], merges := [] }
  | some matcher =>
    match e.model.GetRequestDef rKey with
    | none =>
      { ok := false, err := some (Error.REQUESTDEF_NOT_FOUND rKey), visited := [],
        merges := [] }
    | some rDef =>
      match e.model.GetEffector eKey with
      | none =>
        { ok := false, err := some (Error.EFFECTOR_NOT_FOUND eKey), visited := [],
          merges := [] }
      | some effector => e.enforce matcher rDef effector rvals

/-- `Enforcer.Enforce`. -/
def Enforce (e : Enforcer) (rvals : List Value) : EnforceResult :=
  e.EnforceWithKeys "m" "r" "e" rvals

/-- `Enforcer.EnforceWithMatcherAndKeys`: the results of `AddDef` and
`BuildMatcher` are dropped, and the deferred `RemoveDef` runs after the
result is computed.  Returns the enforcer as the call leaves it and the
result. -/
def EnforceWithMatcherAndKeys (e : Enforcer) (matcher : String) (rKey eKey : String)
    (rvals : List Value) : Enforcer × EnforceResult :=
  let mKey := "m9999"
  let m1 := (e.model.AddDef 'm' mKey matcher).1
  let m2 := (m1.BuildMatcher mKey).1
  let e2 := { e with model := m2 }
  ({ e2 with model := m2.RemoveDef 'm' mKey }, e2.EnforceWithKeys mKey rKey eKey rvals)

end Enforcer

/-! ## Vocabulary for the enforce loop -/

namespace Enforcer

/-- The call of `MergeEffects` that streams the rules `l`: their effects,
the rules, `complete = false`. -/
def mergeCall (pDef : PolicyDef) (l : List Rule) : MergeCall :=
  (l.map pDef.GetEft, l, false)

/-- The result of streaming the rules `l`:
`MergeEffects([e1..ek], [m1..mk], false)` for `l = [m1..mk]`. -/
def streamed (pDef : PolicyDef) (effector : Effector) (l : List Rule) :
    Effect × Int × Option Error :=
  effector.MergeEffects (l.map pDef.GetEft) l false

/-- Streaming the rules `l` gives `Indeterminate` and no error: the
callback asks for the next rule. -/
def Quiet (pDef : PolicyDef) (effector : Effector) (l : List Rule) : Prop :=
  (streamed pDef effector l).1 = Effect.Indeterminate ∧
    (streamed pDef effector l).2.2 = none

instance (pDef : PolicyDef) (effector : Effector) (l : List Rule) :
    Decidable (Quiet pDef effector l) := by
  unfold Quiet; infer_instance

/-- The variables of `enforce` when the callback has been invoked with the
rules `l`. -/
def stateOf (pDef : PolicyDef) (res : Effect) (eftErr : Option Error) (l : List Rule)
    (merges : List MergeCall) : EnforceState :=
  { res := res, effects := l.map pDef.GetEft, matched := l, eftErr := eftErr,
    merges := merges }

end Enforcer

/-! ## Sample data -/

/-- A sample hash: the columns joined by commas. -/
def sampleHash (r : Rule) : String := String.intercalate "," r

/-- A sample effect function: the fourth column, when present, is the
effect column; a rule without it allows. -/
def sampleEft (r : Rule) : Effect :=
  match r.get? 3 with
  | none => Effect.Allow
  | some col =>
    if col = "allow" then Effect.Allow
    else if col = "deny" then Effect.Deny
    else Effect.Indeterminate

/-- A sample policy definition `p = sub, obj, act`. -/
def samplePDef : PolicyDef :=
  { attrs := ["sub", "obj", "act"], GetEft := sampleEft }

/-- A sample rule `alice, data1, read`. -/
def ruleA : Rule := ["alice", "data1", "read"]

/-- A sample rule `bob, data2, write`. -/
def ruleB : Rule := ["bob", "data2", "write"]

/-- A rule with a single column. -/
def ruleShort : Rule := ["alice"]

/-- The empty sample store. -/
def store0 : Policy := Policy.NewPolicy samplePDef

/-- The sample store holding `ruleA`. -/
def store1 : Policy := (Policy.AddRule sampleHash store0 ruleA).1

/-- A sample rule `alice, data1, read, deny`. -/
def ruleDeny : Rule := ["alice", "data1", "read", "deny"]

/-- A sample rule `alice, data1, write`. -/
def ruleW : Rule := ["alice", "data1", "write"]

/-- A sample rule `bob, data2, write, deny`. -/
def ruleBobDeny : Rule := ["bob", "data2", "write", "deny"]

/-- A sample request definition `r = sub, obj, act`. -/
def sampleRDef : RequestDef := { attrs := ["sub", "obj", "act"] }

/-- A sample matcher `r.sub == p.sub` over four candidate rules. -/
def sampleMatcher : Matcher :=
  { policy := samplePDef,
    candidates := fun _ _ => [ruleBobDeny, ruleDeny, ruleA, ruleW],
    eval := fun _ rvals r => Except.ok (decide (r.head? = rvals.head?)) }

/-- A sample effector in the manner of `AllowOverride`: `Allow` as soon as
one effect is `Allow`, `Deny` at the end of the stream otherwise. -/
def allowOverride : Effector :=
  { MergeEffects := fun effects _ complete =>
      if Effect.Allow ∈ effects then (Effect.Allow, (effects.indexOf Effect.Allow : Nat), none)
      else if complete then (Effect.Deny, -1, none)
      else (Effect.Indeterminate, -1, none) }

/-- A sample effector whose `MergeEffects` fails on every call. -/
def failingEffector : Effector :=
  { MergeEffects := fun _ _ _ =>
      (Effect.Indeterminate, -1, some (Error.other "unsupported effect")) }

/-- A sample effector whose `MergeEffects` gives `Allow` together with an
error on every call. -/
def allowWithError : Effector :=
  { MergeEffects := fun _ _ _ =>
      (Effect.Allow, 0, some (Error.other "effector failure")) }

/-- A sample effector in the manner of `DenyOverride`: `Deny` as soon as one
effect is `Deny`, `Allow` at the end of the stream otherwise. -/
def denyOverride : Effector :=
  { MergeEffects := fun effects _ complete =>
      if Effect.Deny ∈ effects then (Effect.Deny, (effects.indexOf Effect.Deny : Nat), none)
      else if complete then (Effect.Allow, -1, none)
      else (Effect.Indeterminate, -1, none) }

/-- A sample matcher whose expression fails on its only candidate. -/
def failingMatcher : Matcher :=
  { policy := samplePDef,
    candidates := fun _ _ => [ruleA],
    eval := fun _ _ _ => Except.error (Error.other "ExprUnbound") }

/-- A sample model with sections `r`, `m` and `e`, whose expression
compiler rejects every text. -/
def sampleModel : Model :=
  { defs := ∅,
    requestDefs := Finmap.singleton "r" sampleRDef,
    matchers := Finmap.singleton "m" sampleMatcher,
    effectors := Finmap.singleton "e" allowOverride,
    parseRequestDef := fun _ => Except.error (Error.other "ConfigSyntax"),
    parseEffector := fun _ => Except.error (Error.other "ConfigSyntax"),
    compile := fun _ => Except.error (Error.other "ExprSyntax") }

/-- The sample model after an earlier ad-hoc matcher was built under
`m9999` and its definition removed. -/
def staleModel : Model :=
  { sampleModel with matchers := sampleModel.matchers.insert "m9999" sampleMatcher }

/-- A sample enforcer over the model that holds a matcher `m9999`. -/
def staleEnforcer : Enforcer :=
  { model := staleModel, adapter := some Adapter.noop, sc := none }

/-- A sample enforcer over the sample model. -/
def sampleEnforcer : Enforcer :=
  { model := sampleModel, adapter := some Adapter.noop, sc := none }

/-- A sample world in which every policy file is empty and readable. -/
def sampleWorld : World :=
  { NewModelFromFile := fun _ => Except.error (Error.other "no such file"),
    readLines := fun _ => Except.ok ([], none),
    LoadPolicyLine := fun _ m => m,
    storageEnabled := true }


/-! ## Properties of the rule store -/

namespace Policy

theorem keyedByHash_NewPolicy (Hash : Rule → String) (d : PolicyDef) :
    KeyedByHash Hash (NewPolicy d) := by
  intro k v h
  simp [NewPolicy, Finmap.lookup_empty] at h

theorem keyedByHash_AddRule (Hash : Rule → String) (p : Policy) (r : Rule)
    (h : KeyedByHash Hash p) : KeyedByHash Hash (AddRule Hash p r).1 := by
  intro k v hk
  unfold AddRule at hk
  by_cases hm : Hash r ∈ p.ruleMap
  · simp only [hm, if_true] at hk
    exact h k v hk
  · simp only [hm, if_false, EmitEvent] at hk
    by_cases hkr : k = Hash r
    · subst hkr
      rw [Finmap.lookup_insert] at hk
      exact (Option.some.inj hk) ▸ rfl
    · rw [Finmap.lookup_insert_of_ne _ hkr] at hk
      exact h k v hk

theorem keyedByHash_RemoveRule (Hash : Rule → String) (p : Policy) (r : Rule)
    (h : KeyedByHash Hash p) : KeyedByHash Hash (RemoveRule Hash p r).1 := by
  intro k v hk
  unfold RemoveRule at hk
  by_cases hm : Hash r ∈ p.ruleMap
  · simp only [hm, if_true, EmitEvent] at hk
    by_cases hkr : k = Hash r
    · subst hkr
      rw [Finmap.lookup_erase] at hk
      exact absurd hk (by simp)
    · rw [Finmap.lookup_erase_ne hkr] at hk
      exact h k v hk
  · simp only [hm, if_false] at hk
    exact h k v hk

theorem keyedByHash_Clear (Hash : Rule → String) (p : Policy) :
    KeyedByHash Hash (Clear p).1 := by
  intro k v hk
  simp [Clear, EmitEvent, Finmap.lookup_empty] at hk

theorem lookup_AddRule_self (Hash : Rule → String) (p : Policy) (r : Rule)
    (h : Hash r ∉ p.ruleMap) :
    (AddRule Hash p r).1.ruleMap.lookup (Hash r) = some r := by
  simp [AddRule, h, EmitEvent, Finmap.lookup_insert]

theorem AddRule_of_mem (Hash : Rule → String) (p : Policy) (r : Rule)
    (h : Hash r ∈ p.ruleMap) : AddRule Hash p r = (p, false, none) := by
  simp [AddRule, h]

theorem AddRule_of_not_mem (Hash : Rule → String) (p : Policy) (r : Rule)
    (h : Hash r ∉ p.ruleMap) :
    AddRule Hash p r =
      ({ ruleMap := p.ruleMap.insert (Hash r) r,
         emitted := p.emitted ++ [Event.RULE_ADDED r],
         pDef := p.pDef }, true, none) := by
  simp [AddRule, h, EmitEvent]

theorem RemoveRule_of_mem (Hash : Rule → String) (p : Policy) (r : Rule)
    (h : Hash r ∈ p.ruleMap) :
    RemoveRule Hash p r =
      ({ ruleMap := p.ruleMap.erase (Hash r),
         emitted := p.emitted ++ [Event.RULE_REMOVED r],
         pDef := p.pDef }, true, none) := by
  simp [RemoveRule, h, EmitEvent]

theorem RemoveRule_of_not_mem (Hash : Rule → String) (p : Policy) (r : Rule)
    (h : Hash r ∉ p.ruleMap) : RemoveRule Hash p r = (p, false, none) := by
  simp [RemoveRule, h]

theorem mem_ruleMap_AddRule (Hash : Rule → String) (p : Policy) (r : Rule) :
    Hash r ∈ (AddRule Hash p r).1.ruleMap := by
  by_cases h : Hash r ∈ p.ruleMap
  · rw [AddRule_of_mem Hash p r h]; exact h
  · rw [AddRule_of_not_mem Hash p r h]; simp [Finmap.mem_insert]

/-- In a store keyed by hash where `r` collides with no other stored rule,
after `AddRule r` exactly one key holds `r`. -/
theorem one_copy_after_AddRule (Hash : Rule → String) (p : Policy) (r : Rule)
    (hk : KeyedByHash Hash p) (hc : NoCollision Hash p r) :
    ∃! k, (AddRule Hash p r).1.ruleMap.lookup k = some r := by
  refine ⟨Hash r, ?_, ?_⟩
  · by_cases h : Hash r ∈ p.ruleMap
    · rw [AddRule_of_mem Hash p r h]
      obtain ⟨v, hv⟩ := Finmap.mem_iff.mp h
      show p.ruleMap.lookup (Hash r) = some r
      rw [hv, hc v hv]
    · exact lookup_AddRule_self Hash p r h
  · intro k hkr
    exact (keyedByHash_AddRule Hash p r hk k r hkr).symm

/-- C1. `Policy.AddRule` never returns an error and reports `added = true`
exactly when the hash of the rule is not yet a key of the store.  When the
hash is present the policy (rules and emitted events) is unchanged;
otherwise the rule is inserted under its hash, every other key keeps its
entry, and the emitted events grow by exactly one `RULE_ADDED` carrying the
rule.  A second `AddRule` of the same rule reports `false`, returns no
error and changes nothing, and (in a store keyed by hash in which the rule
collides with no other stored rule) the store then holds the rule under
exactly one key. -/
theorem AddRule_contract (Hash : Rule → String) (p : Policy) (r : Rule) :
    (AddRule Hash p r).2.2 = none ∧
    ((AddRule Hash p r).2.1 = true ↔ Hash r ∉ p.ruleMap) ∧
    (Hash r ∈ p.ruleMap → (AddRule Hash p r).1 = p) ∧
    (Hash r ∉ p.ruleMap →
      (AddRule Hash p r).1.ruleMap = p.ruleMap.insert (Hash r) r ∧
      (AddRule Hash p r).1.ruleMap.lookup (Hash r) = some r ∧
      (∀ k, k ≠ Hash r →
        (AddRule Hash p r).1.ruleMap.lookup k = p.ruleMap.lookup k) ∧
      (AddRule Hash p r).1.emitted = p.emitted ++ [Event.RULE_ADDED r]) ∧
    (AddRule Hash (AddRule Hash p r).1 r).2.1 = false ∧
    (AddRule Hash (AddRule Hash p r).1 r).2.2 = none ∧
    (AddRule Hash (AddRule Hash p r).1 r).1 = (AddRule Hash p r).1 ∧
    (KeyedByHash Hash p → NoCollision Hash p r →
      ∃! k, (AddRule Hash (AddRule Hash p r).1 r).1.ruleMap.lookup k = some r) := by
  have h2 := AddRule_of_mem Hash (AddRule Hash p r).1 r (mem_ruleMap_AddRule Hash p r)
  refine ⟨?_, ?_, ?_, ?_, ?_, ?_, ?_, ?_⟩
  · by_cases h : Hash r ∈ p.ruleMap
    · rw [AddRule_of_mem Hash p r h]
    · rw [AddRule_of_not_mem Hash p r h]
  · by_cases h : Hash r ∈ p.ruleMap
    · rw [AddRule_of_mem Hash p r h]; simp [h]
    · rw [AddRule_of_not_mem Hash p r h]; simp [h]
  · intro h; rw [AddRule_of_mem Hash p r h]
  · intro h
    rw [AddRule_of_not_mem Hash p r h]
    refine ⟨rfl, Finmap.lookup_insert _, ?_, rfl⟩
    intro k hk
    exact Finmap.lookup_insert_of_ne _ hk
  · rw [h2]
  · rw [h2]
  · rw [h2]
  · intro hk hc
    rw [h2]
    exact one_copy_after_AddRule Hash p r hk hc

/-- C1, at the empty sample store and `ruleA`: the first call adds the rule
and emits one event, the second call reports `false`, and exactly one key
holds the rule afterwards. -/
theorem AddRule_contract_witness :
    (AddRule sampleHash store0 ruleA).2.1 = true ∧
    (AddRule sampleHash store0 ruleA).1.emitted = [Event.RULE_ADDED ruleA] ∧
    (AddRule sampleHash (AddRule sampleHash store0 ruleA).1 ruleA).2.1 = false ∧
    ∃! k, (AddRule sampleHash (AddRule sampleHash store0 ruleA).1
      ruleA).1.ruleMap.lookup k = some ruleA :=
  have hn : sampleHash ruleA ∉ store0.ruleMap := by decide
  have hc : NoCollision sampleHash store0 ruleA := by
    intro v hv
    exact absurd (Finmap.mem_of_lookup_eq_some hv) hn
  have h := AddRule_contract sampleHash store0 ruleA
  ⟨h.2.1.mpr hn, (h.2.2.2.1 hn).2.2.2, h.2.2.2.2.1,
    h.2.2.2.2.2.2.2 (keyedByHash_NewPolicy sampleHash samplePDef) hc⟩

/-- C2. `Policy.RemoveRule` never returns an error and reports
`removed = true` exactly when the hash of the rule is a key of the store.
When the hash is absent the policy (rules and emitted events) is unchanged;
otherwise the entry under the hash is deleted, every other key keeps its
entry, and the emitted events grow by exactly one `RULE_REMOVED` carrying
the rule. -/
theorem RemoveRule_contract (Hash : Rule → String) (p : Policy) (r : Rule) :
    (RemoveRule Hash p r).2.2 = none ∧
    ((RemoveRule Hash p r).2.1 = true ↔ Hash r ∈ p.ruleMap) ∧
    (Hash r ∉ p.ruleMap → (RemoveRule Hash p r).1 = p) ∧
    (Hash r ∈ p.ruleMap →
      (RemoveRule Hash p r).1.ruleMap = p.ruleMap.erase (Hash r) ∧
      (RemoveRule Hash p r).1.ruleMap.lookup (Hash r) = none ∧
      (∀ k, k ≠ Hash r →
        (RemoveRule Hash p r).1.ruleMap.lookup k = p.ruleMap.lookup k) ∧
      (RemoveRule Hash p r).1.emitted = p.emitted ++ [Event.RULE_REMOVED r]) := by
  refine ⟨?_, ?_, ?_, ?_⟩
  · by_cases h : Hash r ∈ p.ruleMap
    · rw [RemoveRule_of_mem Hash p r h]
    · rw [RemoveRule_of_not_mem Hash p r h]
  · by_cases h : Hash r ∈ p.ruleMap
    · rw [RemoveRule_of_mem Hash p r h]; simp [h]
    · rw [RemoveRule_of_not_mem Hash p r h]; simp [h]
  · intro h; rw [RemoveRule_of_not_mem Hash p r h]
  · intro h
    rw [RemoveRule_of_mem Hash p r h]
    refine ⟨rfl, Finmap.lookup_erase _ _, ?_, rfl⟩
    intro k hk
    exact Finmap.lookup_erase_ne hk

/-- C2, at the sample store holding `ruleA`: removing `ruleA` reports
`true`, empties the entry and emits `RULE_REMOVED`; removing `ruleB`, which
is absent, changes nothing. -/
theorem RemoveRule_contract_witness :
    (RemoveRule sampleHash store1 ruleA).2.1 = true ∧
    (RemoveRule sampleHash store1 ruleA).1.ruleMap.lookup (sampleHash ruleA) = none ∧
    (RemoveRule sampleHash store1 ruleA).1.emitted =
      store1.emitted ++ [Event.RULE_REMOVED ruleA] ∧
    (RemoveRule sampleHash store1 ruleB).1 = store1 :=
  have hA : sampleHash ruleA ∈ store1.ruleMap := by decide
  have hB : sampleHash ruleB ∉ store1.ruleMap := by decide
  ⟨(RemoveRule_contract sampleHash store1 ruleA).2.1.mpr hA,
    ((RemoveRule_contract sampleHash store1 ruleA).2.2.2 hA).2.1,
    ((RemoveRule_contract sampleHash store1 ruleA).2.2.2 hA).2.2.2,
    (RemoveRule_contract sampleHash store1 ruleB).2.2.1 hB⟩

/-- C3. For a rule stored in the store, `RemoveRule` followed by `AddRule`
both report `true` without error and leave the rule map equal to the
original one (same keys, equal rules), so every function of the stored
rules, in particular every decision, has the same value as before. -/
theorem RemoveRule_AddRule_restores (Hash : Rule → String) (p : Policy) (r : Rule)
    (h : Stores Hash p r) :
    (RemoveRule Hash p r).2 = (true, none) ∧
    (AddRule Hash (RemoveRule Hash p r).1 r).2 = (true, none) ∧
    (AddRule Hash (RemoveRule Hash p r).1 r).1.ruleMap = p.ruleMap ∧
    (∀ k, (AddRule Hash (RemoveRule Hash p r).1 r).1.ruleMap.lookup k =
      p.ruleMap.lookup k) ∧
    (∀ (α : Type) (decision : RuleMap → α),
      decision (AddRule Hash (RemoveRule Hash p r).1 r).1.ruleMap =
        decision p.ruleMap) := by
  have hm : Hash r ∈ p.ruleMap := Finmap.mem_of_lookup_eq_some h
  have hn : Hash r ∉ (RemoveRule Hash p r).1.ruleMap := by
    rw [RemoveRule_of_mem Hash p r hm]
    exact Finmap.not_mem_erase_self
  have heq : (AddRule Hash (RemoveRule Hash p r).1 r).1.ruleMap = p.ruleMap := by
    rw [AddRule_of_not_mem Hash _ r hn, RemoveRule_of_mem Hash p r hm]
    show Finmap.insert (Hash r) r (Finmap.erase (Hash r) p.ruleMap) = p.ruleMap
    apply Finmap.ext_lookup
    intro k
    by_cases hk : k = Hash r
    · subst hk
      rw [Finmap.lookup_insert]
      exact h.symm
    · rw [Finmap.lookup_insert_of_ne _ hk, Finmap.lookup_erase_ne hk]
  refine ⟨?_, ?_, heq, ?_, ?_⟩
  · rw [RemoveRule_of_mem Hash p r hm]
  · rw [AddRule_of_not_mem Hash _ r hn]
  · intro k; rw [heq]
  · intro α decision; rw [heq]

/-- C3, at the sample store holding `ruleA`. -/
theorem RemoveRule_AddRule_restores_witness :
    Stores sampleHash store1 ruleA ∧
    (AddRule sampleHash (RemoveRule sampleHash store1 ruleA).1 ruleA).1.ruleMap =
      store1.ruleMap :=
  have h : Stores sampleHash store1 ruleA := by unfold Stores; decide
  ⟨h, (RemoveRule_AddRule_restores sampleHash store1 ruleA h).2.2.1⟩

/-- In a store keyed by hash, a rule is held under some key exactly when it
is stored under its own hash. -/
theorem stores_iff_held (Hash : Rule → String) (p : Policy) (r : Rule)
    (hk : KeyedByHash Hash p) :
    Stores Hash p r ↔ ∃ k, p.ruleMap.lookup k = some r := by
  constructor
  · intro h; exact ⟨Hash r, h⟩
  · rintro ⟨k, h⟩
    have := hk k r h
    subst this
    exact h

end Policy


/-! ## Properties of the traversal and of the enforce loop -/

namespace Matcher

/-- A traversal whose callback only collects returns the yielded rules and
the error of the unstopped traversal. -/
theorem rangeFrom_collect (eval : Rule → Except Error Bool) (cands acc : List Rule) :
    Matcher.rangeFrom eval Enforcer.filterCallback cands acc =
      (acc ++ Matcher.yieldsFrom eval cands, Matcher.errorFrom eval cands) := by
  induction cands generalizing acc with
  | nil => simp [Matcher.rangeFrom, Matcher.yieldsFrom, Matcher.errorFrom]
  | cons c cs ih =>
    unfold Matcher.rangeFrom Matcher.yieldsFrom Matcher.errorFrom
    cases h : eval c with
    | error err => simp
    | ok b =>
      cases b with
      | false => simpa using ih acc
      | true => simp [Enforcer.filterCallback, ih]

end Matcher

namespace Enforcer

theorem enforceCallback_stateOf (pDef : PolicyDef) (effector : Effector)
    (res : Effect) (eftErr : Option Error) (acc : List Rule) (base : List MergeCall)
    (c : Rule) :
    enforceCallback pDef effector (stateOf pDef res eftErr acc base) c =
      (stateOf pDef (streamed pDef effector (acc ++ [c])).1
          (streamed pDef effector (acc ++ [c])).2.2 (acc ++ [c])
          (base ++ [mergeCall pDef (acc ++ [c])]),
        decide (Quiet pDef effector (acc ++ [c]))) := by
  unfold enforceCallback stateOf streamed mergeCall Quiet streamed
  simp only [List.map_append, List.map_cons, List.map_nil]
  by_cases h1 : (effector.MergeEffects (List.map pDef.GetEft acc ++ [pDef.GetEft c])
      (acc ++ [c]) false).2.2 = none
  · by_cases h2 : (effector.MergeEffects (List.map pDef.GetEft acc ++ [pDef.GetEft c])
        (acc ++ [c]) false).1 = Effect.Indeterminate
    · simp [h1, h2]
    · simp [h1, h2]
  · simp [h1]

/-- The traversal is stopped at the first yielded rule after which
streaming is not quiet; the callback has then been invoked with the yielded
rules up to and including that one. -/
theorem rangeFrom_stop (pDef : PolicyDef) (effector : Effector)
    (eval : Rule → Except Error Bool) (cands : List Rule) :
    ∀ (acc : List Rule) (base : List MergeCall) (k : Nat),
      k < (Matcher.yieldsFrom eval cands).length →
      (∀ j, j < k →
        Quiet pDef effector (acc ++ (Matcher.yieldsFrom eval cands).take (j + 1))) →
      ¬ Quiet pDef effector (acc ++ (Matcher.yieldsFrom eval cands).take (k + 1)) →
      Matcher.rangeFrom eval (enforceCallback pDef effector) cands
          (stateOf pDef Effect.Indeterminate none acc base) =
        (stateOf pDef
          (streamed pDef effector (acc ++ (Matcher.yieldsFrom eval cands).take (k + 1))).1
          (streamed pDef effector (acc ++ (Matcher.yieldsFrom eval cands).take (k + 1))).2.2
          (acc ++ (Matcher.yieldsFrom eval cands).take (k + 1))
          (base ++ (List.range (k + 1)).map (fun i =>
            mergeCall pDef (acc ++ (Matcher.yieldsFrom eval cands).take (i + 1)))),
         none) := by
  induction cands with
  | nil =>
    intro acc base k hk
    simp [Matcher.yieldsFrom] at hk
  | cons c cs ih =>
    intro acc base k hk hq hn
    unfold Matcher.rangeFrom
    unfold Matcher.yieldsFrom at hk hq hn ⊢
    cases h : eval c with
    | error err => simp [h] at hk
    | ok b =>
      cases b with
      | false =>
        simp only [h] at hk hq hn ⊢
        exact ih acc base k hk hq hn
      | true =>
        simp only [h] at hk hq hn ⊢
        rw [enforceCallback_stateOf]
        cases k with
        | zero =>
          simp only [List.take_succ_cons, List.take_zero, zero_add] at hn ⊢
          simp [hn, List.range_succ]
        | succ k =>
          have hq0 : Quiet pDef effector (acc ++ [c]) := by
            have := hq 0 (Nat.succ_pos k)
            simpa using this
          simp only [hq0, decide_True, if_true]
          rw [hq0.1, hq0.2]
          have hk1 : k < (Matcher.yieldsFrom eval cs).length := by
            simpa using hk
          have hq1 : ∀ j, j < k → Quiet pDef effector
              ((acc ++ [c]) ++ (Matcher.yieldsFrom eval cs).take (j + 1)) := by
            intro j hj
            have := hq (j + 1) (Nat.succ_lt_succ hj)
            simpa using this
          have hn1 : ¬ Quiet pDef effector
              ((acc ++ [c]) ++ (Matcher.yieldsFrom eval cs).take (k + 1)) := by
            simpa using hn
          rw [ih (acc ++ [c]) (base ++ [mergeCall pDef (acc ++ [c])]) k hk1 hq1 hn1]
          rw [List.range_succ_eq_map (k + 1)]
          simp [Function.comp_def]

/-- A traversal during which streaming stays quiet visits every yielded
rule and ends with the error of the unstopped traversal. -/
theorem rangeFrom_full (pDef : PolicyDef) (effector : Effector)
    (eval : Rule → Except Error Bool) (cands : List Rule) :
    ∀ (acc : List Rule) (base : List MergeCall),
      (∀ j, j < (Matcher.yieldsFrom eval cands).length →
        Quiet pDef effector (acc ++ (Matcher.yieldsFrom eval cands).take (j + 1))) →
      Matcher.rangeFrom eval (enforceCallback pDef effector) cands
          (stateOf pDef Effect.Indeterminate none acc base) =
        (stateOf pDef Effect.Indeterminate none
          (acc ++ Matcher.yieldsFrom eval cands)
          (base ++ (List.range (Matcher.yieldsFrom eval cands).length).map (fun i =>
            mergeCall pDef (acc ++ (Matcher.yieldsFrom eval cands).take (i + 1)))),
         Matcher.errorFrom eval cands) := by
  induction cands with
  | nil =>
    intro acc base _
    simp [Matcher.rangeFrom, Matcher.yieldsFrom, Matcher.errorFrom]
  | cons c cs ih =>
    intro acc base hq
    unfold Matcher.rangeFrom Matcher.errorFrom
    unfold Matcher.yieldsFrom at hq ⊢
    cases h : eval c with
    | error err => simp
    | ok b =>
      cases b with
      | false =>
        simp only [h] at hq ⊢
        exact ih acc base hq
      | true =>
        simp only [h] at hq ⊢
        rw [enforceCallback_stateOf]
        have hq0 : Quiet pDef effector (acc ++ [c]) := by
          have := hq 0 (by simp)
          simpa using this
        simp only [hq0, decide_True, if_true]
        rw [hq0.1, hq0.2]
        have hq1 : ∀ j, j < (Matcher.yieldsFrom eval cs).length → Quiet pDef effector
            ((acc ++ [c]) ++ (Matcher.yieldsFrom eval cs).take (j + 1)) := by
          intro j hj
          have := hq (j + 1) (by simpa using hj)
          simpa using this
        rw [ih (acc ++ [c]) (base ++ [mergeCall pDef (acc ++ [c])]) hq1]
        rw [List.length_cons, List.range_succ_eq_map]
        simp [Function.comp_def]

end Enforcer


theorem least_failure (P : Nat → Prop) [DecidablePred P] (n : Nat) :
    (∀ j, j < n → P j) ∨ ∃ k, k < n ∧ (∀ j, j < k → P j) ∧ ¬ P k := by
  induction n with
  | zero => exact Or.inl (fun j hj => absurd hj (Nat.not_lt_zero j))
  | succ n ih =>
    rcases ih with h | ⟨k, hk, hlt, hnot⟩
    · by_cases hn : P n
      · left
        intro j hj
        rcases Nat.lt_succ_iff_lt_or_eq.mp hj with h1 | h1
        · exact h j h1
        · exact h1 ▸ hn
      · exact Or.inr ⟨n, Nat.lt_succ_self n, h, hn⟩
    · exact Or.inr ⟨k, Nat.lt_succ_of_lt hk, hlt, hnot⟩

namespace Enforcer

theorem enforceInit_eq (pDef : PolicyDef) :
    enforceInit = stateOf pDef Effect.Indeterminate none [] [] := rfl

/-- The result of `enforce` when the traversal is stopped after the yielded
rule of index `k` (counted from 0). -/
theorem enforce_stop (e : Enforcer) (matcher : Matcher) (rDef : RequestDef)
    (effector : Effector) (rvals : List Value) (k : Nat)
    (hk : k < (matcher.yields rDef rvals).length)
    (hq : ∀ j, j < k →
      Quiet matcher.GetPolicy effector ((matcher.yields rDef rvals).take (j + 1)))
    (hn : ¬ Quiet matcher.GetPolicy effector ((matcher.yields rDef rvals).take (k + 1))) :
    e.enforce matcher rDef effector rvals =
      { ok := decide
          ((streamed matcher.GetPolicy effector
              ((matcher.yields rDef rvals).take (k + 1))).2.2 = none ∧
           (streamed matcher.GetPolicy effector
              ((matcher.yields rDef rvals).take (k + 1))).1 = Effect.Allow),
        err := none,
        visited := (matcher.yields rDef rvals).take (k + 1),
        merges := (List.range (k + 1)).map (fun i =>
          mergeCall matcher.GetPolicy ((matcher.yields rDef rvals).take (i + 1))) } := by
  have hq1 : ∀ j, j < k → Quiet matcher.GetPolicy effector
      ([] ++ (Matcher.yieldsFrom (matcher.eval rDef rvals)
        (matcher.candidates rDef rvals)).take (j + 1)) := by
    intro j hj; simpa [Matcher.yields] using hq j hj
  have hn1 : ¬ Quiet matcher.GetPolicy effector
      ([] ++ (Matcher.yieldsFrom (matcher.eval rDef rvals)
        (matcher.candidates rDef rvals)).take (k + 1)) := by
    simpa [Matcher.yields] using hn
  have hrun := rangeFrom_stop matcher.GetPolicy effector (matcher.eval rDef rvals)
    (matcher.candidates rDef rvals) [] [] k hk hq1 hn1
  unfold enforce RangeMatches Model.RangeMatches
  dsimp only
  rw [enforceInit_eq matcher.GetPolicy, hrun]
  simp only [List.nil_append, stateOf, Matcher.yields] at hn ⊢
  unfold Quiet at hn
  by_cases h1 : (streamed matcher.GetPolicy effector
      ((Matcher.yieldsFrom (matcher.eval rDef rvals)
        (matcher.candidates rDef rvals)).take (k + 1))).2.2 = none
  · have h2 : (streamed matcher.GetPolicy effector
        ((Matcher.yieldsFrom (matcher.eval rDef rvals)
          (matcher.candidates rDef rvals)).take (k + 1))).1 ≠ Effect.Indeterminate :=
      fun h => hn ⟨h, h1⟩
    simp [h1, h2]
  · simp [h1]

/-- The result of `enforce` when streaming stays quiet on every yielded
rule. -/
theorem enforce_full (e : Enforcer) (matcher : Matcher) (rDef : RequestDef)
    (effector : Effector) (rvals : List Value)
    (hq : ∀ j, j < (matcher.yields rDef rvals).length →
      Quiet matcher.GetPolicy effector ((matcher.yields rDef rvals).take (j + 1))) :
    e.enforce matcher rDef effector rvals =
      if matcher.rangeError rDef rvals ≠ none then
        { ok := false, err := matcher.rangeError rDef rvals,
          visited := matcher.yields rDef rvals,
          merges := (List.range (matcher.yields rDef rvals).length).map (fun i =>
            mergeCall matcher.GetPolicy ((matcher.yields rDef rvals).take (i + 1))) }
      else
        { ok := decide ((effector.MergeEffects
            ((matcher.yields rDef rvals).map matcher.GetPolicy.GetEft)
            (matcher.yields rDef rvals) true).1 = Effect.Allow),
          err := none,
          visited := matcher.yields rDef rvals,
          merges := (List.range (matcher.yields rDef rvals).length).map (fun i =>
              mergeCall matcher.GetPolicy ((matcher.yields rDef rvals).take (i + 1))) ++
            [((matcher.yields rDef rvals).map matcher.GetPolicy.GetEft,
              matcher.yields rDef rvals, true)] } := by
  have hq1 : ∀ j, j < (Matcher.yieldsFrom (matcher.eval rDef rvals)
      (matcher.candidates rDef rvals)).length → Quiet matcher.GetPolicy effector
      ([] ++ (Matcher.yieldsFrom (matcher.eval rDef rvals)
        (matcher.candidates rDef rvals)).take (j + 1)) := by
    intro j hj; simpa [Matcher.yields] using hq j hj
  have hrun := rangeFrom_full matcher.GetPolicy effector (matcher.eval rDef rvals)
    (matcher.candidates rDef rvals) [] [] hq1
  unfold enforce RangeMatches Model.RangeMatches
  dsimp only
  rw [enforceInit_eq matcher.GetPolicy, hrun]
  simp only [List.nil_append, stateOf, Matcher.yields, Matcher.rangeError]
  by_cases h1 : Matcher.errorFrom (matcher.eval rDef rvals)
      (matcher.candidates rDef rvals) = none
  · simp [h1]
  · simp [h1]

theorem not_mem_streamed_calls (pDef : PolicyDef) (ms : List Rule) (n : Nat)
    (call : MergeCall) (h : call ∈ (List.range n).map (fun i => mergeCall pDef (ms.take (i + 1))))
    : call.2.2 = false := by
  obtain ⟨i, _, hi⟩ := List.mem_map.mp h
  rw [← hi]
  rfl

end Enforcer


namespace Enforcer

/-- C4 (counterexample).  Two inputs on which the claim fails as stated.
With the effector that returns `Allow` together with an error, the first
streamed result is not `Indeterminate`, so the least index is 1 and its
merged effect is `Allow`; yet `enforce` returns `false`.  With the matcher
whose expression fails, no rule is yielded, so no index exists, and
`MergeEffects` with `complete = true` of the deny-override effector gives
`Allow`; yet `enforce` returns `false` (with the error of the traversal),
and `MergeEffects` is never called. -/
theorem enforce_decision_fails_on_error :
    (sampleMatcher.yields sampleRDef ["alice", "data1", "read"] = [ruleDeny, ruleA, ruleW] ∧
      (streamed sampleMatcher.GetPolicy allowWithError
        ((sampleMatcher.yields sampleRDef ["alice", "data1", "read"]).take 1)).1 =
          Effect.Allow ∧
      (sampleEnforcer.enforce sampleMatcher sampleRDef allowWithError
        ["alice", "data1", "read"]).ok = false) ∧
    (failingMatcher.yields sampleRDef ["alice", "data1", "read"] = [] ∧
      (denyOverride.MergeEffects
        ((failingMatcher.yields sampleRDef ["alice", "data1", "read"]).map
          failingMatcher.GetPolicy.GetEft)
        (failingMatcher.yields sampleRDef ["alice", "data1", "read"]) true).1 =
          Effect.Allow ∧
      (sampleEnforcer.enforce failingMatcher sampleRDef denyOverride
        ["alice", "data1", "read"]).ok = false ∧
      (sampleEnforcer.enforce failingMatcher sampleRDef denyOverride
        ["alice", "data1", "read"]).merges = []) := by
  refine ⟨⟨by decide, by decide, by decide⟩, ⟨by decide, by decide, by decide, by decide⟩⟩

/-- C4 (amended).  `enforce` computes the decision of the enforce pipeline
when the evaluation raises no error.  Let `m1..mn` be the rules the matcher
yields for the request and let the streamed result of a prefix be
`MergeEffects` on the effects and rules of that prefix with
`complete = false`.
(a) If `k` is the least index whose streamed result is not `Indeterminate`
and the streamed calls before `k` return no error, the traversal stops
after `m_k`: the callback is invoked with exactly `m1..mk` and the calls of
`MergeEffects` are the `k` streamed ones (none with `complete = true`); if
the streamed call for `k` returns no error either, the error is nil and the
result is `true` iff the streamed result of `m1..mk` is `Allow`.
(b) If every streamed result is `Indeterminate`, no streamed call returns
an error and the traversal ends without error, the callback is invoked with
all of `m1..mn`, one call with `complete = true` on all effects and rules
follows the streamed ones, the error is nil and the result is `true` iff
that call gives `Allow`.
(c) Without any proviso: a call with `complete = true` occurs only as the
call on all of `m1..mn`, after a traversal that visited all of them, ended
without error and whose streamed results were all `Indeterminate` without
error. -/
theorem enforce_decision (e : Enforcer) (matcher : Matcher) (rDef : RequestDef)
    (effector : Effector) (rvals : List Value) :
    (∀ k, 1 ≤ k → k ≤ (matcher.yields rDef rvals).length →
      (∀ j, 1 ≤ j → j < k →
        (streamed matcher.GetPolicy effector
          ((matcher.yields rDef rvals).take j)).1 = Effect.Indeterminate) →
      (streamed matcher.GetPolicy effector
          ((matcher.yields rDef rvals).take k)).1 ≠ Effect.Indeterminate →
      (∀ j, 1 ≤ j → j < k →
        (streamed matcher.GetPolicy effector
          ((matcher.yields rDef rvals).take j)).2.2 = none) →
      (e.enforce matcher rDef effector rvals).visited = (matcher.yields rDef rvals).take k ∧
      (e.enforce matcher rDef effector rvals).merges =
        (List.range k).map (fun i =>
          mergeCall matcher.GetPolicy ((matcher.yields rDef rvals).take (i + 1))) ∧
      ((streamed matcher.GetPolicy effector
          ((matcher.yields rDef rvals).take k)).2.2 = none →
        (e.enforce matcher rDef effector rvals).err = none ∧
        ((e.enforce matcher rDef effector rvals).ok = true ↔
          (streamed matcher.GetPolicy effector
            ((matcher.yields rDef rvals).take k)).1 = Effect.Allow))) ∧
    ((∀ j, 1 ≤ j → j ≤ (matcher.yields rDef rvals).length →
        (streamed matcher.GetPolicy effector
          ((matcher.yields rDef rvals).take j)).1 = Effect.Indeterminate) →
      (∀ j, 1 ≤ j → j ≤ (matcher.yields rDef rvals).length →
        (streamed matcher.GetPolicy effector
          ((matcher.yields rDef rvals).take j)).2.2 = none) →
      matcher.rangeError rDef rvals = none →
      (e.enforce matcher rDef effector rvals).visited = matcher.yields rDef rvals ∧
      (e.enforce matcher rDef effector rvals).merges =
        (List.range (matcher.yields rDef rvals).length).map (fun i =>
          mergeCall matcher.GetPolicy ((matcher.yields rDef rvals).take (i + 1))) ++
        [((matcher.yields rDef rvals).map matcher.GetPolicy.GetEft,
          matcher.yields rDef rvals, true)] ∧
      (e.enforce matcher rDef effector rvals).err = none ∧
      ((e.enforce matcher rDef effector rvals).ok = true ↔
        (effector.MergeEffects ((matcher.yields rDef rvals).map matcher.GetPolicy.GetEft)
          (matcher.yields rDef rvals) true).1 = Effect.Allow)) ∧
    (∀ call, call ∈ (e.enforce matcher rDef effector rvals).merges → call.2.2 = true →
      call = ((matcher.yields rDef rvals).map matcher.GetPolicy.GetEft,
        matcher.yields rDef rvals, true) ∧
      (e.enforce matcher rDef effector rvals).visited = matcher.yields rDef rvals ∧
      matcher.rangeError rDef rvals = none ∧
      ∀ j, 1 ≤ j → j ≤ (matcher.yields rDef rvals).length →
        Quiet matcher.GetPolicy effector ((matcher.yields rDef rvals).take j)) := by
  refine ⟨?_, ?_, ?_⟩
  · intro k hk1 hkn hleast hdet hnoerr
    obtain ⟨k0, rfl⟩ : ∃ k0, k = k0 + 1 := ⟨k - 1, by omega⟩
    have hq : ∀ j, j < k0 → Quiet matcher.GetPolicy effector
        ((matcher.yields rDef rvals).take (j + 1)) := fun j hj =>
      ⟨hleast (j + 1) (by omega) (by omega), hnoerr (j + 1) (by omega) (by omega)⟩
    have hn : ¬ Quiet matcher.GetPolicy effector
        ((matcher.yields rDef rvals).take (k0 + 1)) := fun h => hdet h.1
    rw [enforce_stop e matcher rDef effector rvals k0 (by omega) hq hn]
    refine ⟨rfl, rfl, ?_⟩
    intro herr
    refine ⟨rfl, ?_⟩
    simp [herr]
  · intro hind hnoerr herr
    have hq : ∀ j, j < (matcher.yields rDef rvals).length →
        Quiet matcher.GetPolicy effector ((matcher.yields rDef rvals).take (j + 1)) :=
      fun j hj => ⟨hind (j + 1) (by omega) (by omega), hnoerr (j + 1) (by omega) (by omega)⟩
    rw [enforce_full e matcher rDef effector rvals hq]
    simp [herr]
  · intro call hmem hcomplete
    rcases least_failure
      (fun j => Quiet matcher.GetPolicy effector ((matcher.yields rDef rvals).take (j + 1)))
      (matcher.yields rDef rvals).length with hq | ⟨k0, hk0, hq, hn⟩
    · rw [enforce_full e matcher rDef effector rvals hq] at hmem ⊢
      by_cases herr : matcher.rangeError rDef rvals = none
      · simp only [herr, ne_eq, not_true_eq_false, if_false] at hmem
        rcases List.mem_append.mp hmem with h | h
        · have := not_mem_streamed_calls _ _ _ _ h
          rw [this] at hcomplete
          exact absurd hcomplete (by simp)
        · refine ⟨List.mem_singleton.mp h, by simp [herr], herr, ?_⟩
          intro j hj1 hjn
          obtain ⟨j0, rfl⟩ : ∃ j0, j = j0 + 1 := ⟨j - 1, by omega⟩
          exact hq j0 (by omega)
      · simp only [herr, ne_eq, not_false_eq_true, if_true] at hmem
        have := not_mem_streamed_calls _ _ _ _ hmem
        rw [this] at hcomplete
        exact absurd hcomplete (by simp)
    · rw [enforce_stop e matcher rDef effector rvals k0 hk0 hq hn] at hmem
      have := not_mem_streamed_calls _ _ _ _ hmem
      rw [this] at hcomplete
      exact absurd hcomplete (by simp)

end Enforcer


namespace Enforcer

/-- C4 (amended), on the sample matcher with the allow-override effector.  For the
request of `alice` the yielded rules are `ruleDeny, ruleA, ruleW`; the
second streamed result is the first that is not `Indeterminate`, so the
callback sees two rules and the decision is `true`.  For the request of
`bob` the only yielded rule denies, streaming stays `Indeterminate`, and
the decision is that of the call with `complete = true`: `false`. -/
theorem enforce_decision_witness :
    sampleMatcher.yields sampleRDef ["alice", "data1", "read"] = [ruleDeny, ruleA, ruleW] ∧
    ((sampleEnforcer.enforce sampleMatcher sampleRDef allowOverride
        ["alice", "data1", "read"]).visited = [ruleDeny, ruleA] ∧
      (sampleEnforcer.enforce sampleMatcher sampleRDef allowOverride
        ["alice", "data1", "read"]).ok = true) ∧
    ((sampleEnforcer.enforce sampleMatcher sampleRDef allowOverride
        ["bob", "data2", "write"]).visited = [ruleBobDeny] ∧
      (sampleEnforcer.enforce sampleMatcher sampleRDef allowOverride
        ["bob", "data2", "write"]).ok = false) :=
  have ha := (enforce_decision sampleEnforcer sampleMatcher sampleRDef allowOverride
    ["alice", "data1", "read"]).1 2 (by decide) (by decide)
    (fun j h1 h2 => by
      have hj : j = 1 := by omega
      subst hj; decide)
    (by decide)
    (fun j h1 h2 => by
      have hj : j = 1 := by omega
      subst hj; decide)
  have hb := (enforce_decision sampleEnforcer sampleMatcher sampleRDef allowOverride
    ["bob", "data2", "write"]).2.1
    (fun j h1 h2 => by
      have hj : j = 1 := by
        have : (sampleMatcher.yields sampleRDef ["bob", "data2", "write"]).length = 1 := by
          decide
        omega
      subst hj; decide)
    (fun j h1 h2 => by
      have hj : j = 1 := by
        have : (sampleMatcher.yields sampleRDef ["bob", "data2", "write"]).length = 1 := by
          decide
        omega
      subst hj; decide)
    (by decide)
  ⟨by decide, ⟨ha.1, (ha.2.2 (by decide)).2.mpr (by decide)⟩,
    ⟨hb.1, by
      have h := hb.2.2.2
      cases hok : (sampleEnforcer.enforce sampleMatcher sampleRDef allowOverride
        ["bob", "data2", "write"]).ok with
      | false => rfl
      | true => exact absurd (h.mp hok) (by decide)⟩⟩

/-- C5. `EnforceWithKeys` returns `false` and the not-found error of the
first absent section, in the order matcher, request definition, effector;
in that case its callback is invoked with no rule and `MergeEffects` is not
called.  When all three are present its result is that of `enforce` on
them. -/
theorem EnforceWithKeys_not_found (e : Enforcer) (mKey rKey eKey : String)
    (rvals : List Value) :
    (e.model.GetMatcher mKey = none →
      (e.EnforceWithKeys mKey rKey eKey rvals).ok = false ∧
      (e.EnforceWithKeys mKey rKey eKey rvals).err = some (Error.MATCHER_NOT_FOUND mKey) ∧
      (e.EnforceWithKeys mKey rKey eKey rvals).visited = [] ∧
      (e.EnforceWithKeys mKey rKey eKey rvals).merges = []) ∧
    (e.model.GetMatcher mKey ≠ none → e.model.GetRequestDef rKey = none →
      (e.EnforceWithKeys mKey rKey eKey rvals).ok = false ∧
      (e.EnforceWithKeys mKey rKey eKey rvals).err = some (Error.REQUESTDEF_NOT_FOUND rKey) ∧
      (e.EnforceWithKeys mKey rKey eKey rvals).visited = [] ∧
      (e.EnforceWithKeys mKey rKey eKey rvals).merges = []) ∧
    (e.model.GetMatcher mKey ≠ none → e.model.GetRequestDef rKey ≠ none →
      e.model.GetEffector eKey = none →
      (e.EnforceWithKeys mKey rKey eKey rvals).ok = false ∧
      (e.EnforceWithKeys mKey rKey eKey rvals).err = some (Error.EFFECTOR_NOT_FOUND eKey) ∧
      (e.EnforceWithKeys mKey rKey eKey rvals).visited = [] ∧
      (e.EnforceWithKeys mKey rKey eKey rvals).merges = []) ∧
    (∀ matcher rDef effector, e.model.GetMatcher mKey = some matcher →
      e.model.GetRequestDef rKey = some rDef → e.model.GetEffector eKey = some effector →
      e.EnforceWithKeys mKey rKey eKey rvals = e.enforce matcher rDef effector rvals) := by
  refine ⟨?_, ?_, ?_, ?_⟩
  · intro hm
    simp [EnforceWithKeys, hm]
  · intro hm hr
    obtain ⟨mt, hmt⟩ := Option.ne_none_iff_exists'.mp hm
    simp [EnforceWithKeys, hmt, hr]
  · intro hm hr he
    obtain ⟨mt, hmt⟩ := Option.ne_none_iff_exists'.mp hm
    obtain ⟨rd, hrd⟩ := Option.ne_none_iff_exists'.mp hr
    simp [EnforceWithKeys, hmt, hrd, he]
  · intro mt rd ef hm hr he
    simp [EnforceWithKeys, hm, hr, he]

/-- C5, on the sample enforcer: an absent matcher, an absent request
definition and an absent effector are each reported by name. -/
theorem EnforceWithKeys_not_found_witness :
    (sampleEnforcer.EnforceWithKeys "m2" "r2" "e2" ["alice"]).err =
      some (Error.MATCHER_NOT_FOUND "m2") ∧
    (sampleEnforcer.EnforceWithKeys "m" "r2" "e2" ["alice"]).err =
      some (Error.REQUESTDEF_NOT_FOUND "r2") ∧
    (sampleEnforcer.EnforceWithKeys "m" "r" "e2" ["alice"]).err =
      some (Error.EFFECTOR_NOT_FOUND "e2") ∧
    (sampleEnforcer.EnforceWithKeys "m" "r" "e2" ["alice"]).visited = [] :=
  have hm : sampleEnforcer.model.GetMatcher "m" ≠ none := by
    simp [sampleEnforcer, sampleModel, Model.GetMatcher, Finmap.lookup_singleton_eq]
  have hr : sampleEnforcer.model.GetRequestDef "r" ≠ none := by decide
  have he : sampleEnforcer.model.GetEffector "e2" = none :=
    Finmap.lookup_eq_none.mpr (by decide)
  ⟨((EnforceWithKeys_not_found sampleEnforcer "m2" "r2" "e2" ["alice"]).1
      (Finmap.lookup_eq_none.mpr (by decide))).2.1,
    ((EnforceWithKeys_not_found sampleEnforcer "m" "r2" "e2" ["alice"]).2.1 hm
      (by decide)).2.1,
    ((EnforceWithKeys_not_found sampleEnforcer "m" "r" "e2" ["alice"]).2.2.1 hm hr
he).2.1,
    ((EnforceWithKeys_not_found sampleEnforcer "m" "r" "e2" ["alice"]).2.2.1 hm hr
he).2.2.1⟩

end Enforcer


namespace Enforcer

/-- C7. `FilterWithKeys` returns exactly the rules the matcher yields for
the request, each once per yield and in yield order, together with the
error of the unstopped traversal; its callback returns `true` on every
rule, so the traversal is never stopped early.  `Filter` is
`FilterWithKeys` with the keys `m` and `r`.  If the matcher or the request
definition is absent the result is the empty list and the not-found
error. -/
theorem FilterWithKeys_yields (e : Enforcer) (mKey rKey : String) (rvals : List Value) :
    (∀ matcher rDef, e.model.GetMatcher mKey = some matcher →
      e.model.GetRequestDef rKey = some rDef →
      e.FilterWithKeys mKey rKey rvals =
        (matcher.yields rDef rvals, matcher.rangeError rDef rvals)) ∧
    (∀ rules rule, (filterCallback rules rule).2 = true) ∧
    e.Filter rvals = e.FilterWithKeys "m" "r" rvals ∧
    (e.model.GetMatcher mKey = none →
      e.FilterWithKeys mKey rKey rvals = ([], some (Error.MATCHER_NOT_FOUND mKey))) ∧
    (e.model.GetMatcher mKey ≠ none → e.model.GetRequestDef rKey = none →
      e.FilterWithKeys mKey rKey rvals = ([], some (Error.REQUESTDEF_NOT_FOUND rKey))) := by
  refine ⟨?_, ?_, rfl, ?_, ?_⟩
  · intro mt rd hm hr
    simp only [FilterWithKeys, RangeMatchesWithKeys, hm, hr, RangeMatches,
      Model.RangeMatches, Matcher.rangeFrom_collect, List.nil_append, Matcher.yields,
      Matcher.rangeError]
  · intro rules rule
    rfl
  · intro hm
    simp [FilterWithKeys, RangeMatchesWithKeys, hm]
  · intro hm hr
    obtain ⟨mt, hmt⟩ := Option.ne_none_iff_exists'.mp hm
    simp [FilterWithKeys, RangeMatchesWithKeys, hmt, hr]

/-- C7, on the sample enforcer: the request of `alice` is answered by the
three rules of `alice`, in candidate order, and an absent request
definition by the empty list and the not-found error. -/
theorem FilterWithKeys_yields_witness :
    sampleEnforcer.FilterWithKeys "m" "r" ["alice", "data1", "read"] =
      ([ruleDeny, ruleA, ruleW], none) ∧
    sampleEnforcer.FilterWithKeys "m" "r2" ["alice", "data1", "read"] =
      ([], some (Error.REQUESTDEF_NOT_FOUND "r2")) :=
  have hm : sampleEnforcer.model.GetMatcher "m" = some sampleMatcher :=
    Finmap.lookup_singleton_eq
  ⟨((FilterWithKeys_yields sampleEnforcer "m" "r" ["alice", "data1", "read"]).1
      sampleMatcher sampleRDef hm (by decide)).trans
      (by decide),
    (FilterWithKeys_yields sampleEnforcer "m" "r2" ["alice", "data1", "read"]).2.2.2.2
      (by rw [hm]; simp) (by decide)⟩

/-- When `RangeMatches` ends with an error, `enforce` returns `false` and
that error. -/
theorem enforce_range_error (e : Enforcer) (matcher : Matcher) (rDef : RequestDef)
    (effector : Effector) (rvals : List Value) (err : Error)
    (h : (e.RangeMatches matcher rDef rvals
      (enforceCallback matcher.GetPolicy effector) enforceInit).2 = some err) :
    (e.enforce matcher rDef effector rvals).ok = false ∧
    (e.enforce matcher rDef effector rvals).err = some err := by
  unfold enforce
  simp [h]

/-- When `MergeEffects` returns an error on the first streamed prefix on
which it is not quiet, `enforce` returns `false` with a nil error. -/
theorem enforce_effector_error (e : Enforcer) (matcher : Matcher) (rDef : RequestDef)
    (effector : Effector) (rvals : List Value) (k : Nat)
    (hk : k < (matcher.yields rDef rvals).length)
    (hq : ∀ j, j < k →
      Quiet matcher.GetPolicy effector ((matcher.yields rDef rvals).take (j + 1)))
    (herr : (streamed matcher.GetPolicy effector
      ((matcher.yields rDef rvals).take (k + 1))).2.2 ≠ none) :
    (e.enforce matcher rDef effector rvals).ok = false ∧
    (e.enforce matcher rDef effector rvals).err = none := by
  rw [enforce_stop e matcher rDef effector rvals k hk hq (fun h => herr h.2)]
  simp [herr]

/-- C8. On the sample matcher with the failing effector, `MergeEffects`
returns an error on the first streamed prefix, and `enforce` returns
`false` with a nil error: the error of the effector is not propagated. -/
theorem enforce_drops_effector_error :
    (streamed sampleMatcher.GetPolicy failingEffector [ruleDeny]).2.2 =
      some (Error.other "unsupported effect") ∧
    sampleEnforcer.enforce sampleMatcher sampleRDef failingEffector
        ["alice", "data1", "read"] =
      { ok := false, err := none, visited := [ruleDeny],
        merges := [([Effect.Deny], [ruleDeny], false)] } := by
  constructor
  · decide
  · decide

end Enforcer


namespace Model

theorem AddDef_matcher (m : Model) (key value : String) :
    m.AddDef 'm' key value =
      ({ m with defs := m.defs.insert ('m', key) value }, none) := by
  simp [AddDef]

theorem defs_RemoveDef (m : Model) (sec : Char) (key : String) :
    (m.RemoveDef sec key).defs.lookup (sec, key) = none := by
  simp [RemoveDef, Finmap.lookup_erase]

/-- A matcher text the compiler rejects: `BuildMatcher` returns the error of
the compiler and leaves the model as `AddDef` left it. -/
theorem BuildMatcher_rejected (m : Model) (key value : String) (err : Error)
    (h : m.compile value = Except.error err) :
    (m.AddDef 'm' key value).1.BuildMatcher key =
      ((m.AddDef 'm' key value).1, some err) := by
  rw [AddDef_matcher]
  simp [BuildMatcher, Finmap.lookup_insert, h]

/-- A matcher text the compiler accepts: `BuildMatcher` stores the compiled
matcher under the key and returns no error. -/
theorem BuildMatcher_accepted (m : Model) (key value : String) (mt : Matcher)
    (h : m.compile value = Except.ok mt) :
    (m.AddDef 'm' key value).1.BuildMatcher key =
      ({ (m.AddDef 'm' key value).1 with matchers := m.matchers.insert key mt }, none) := by
  rw [AddDef_matcher]
  simp [BuildMatcher, Finmap.lookup_insert, h]

end Model

namespace Enforcer

/-- C9 (counterexample).  On the sample model, whose compiler rejects the
text `r.sub ==`, `BuildMatcher` returns the error of the compiler, and
`EnforceWithMatcherAndKeys` and `FilterWithMatcherAndKeys` return a
different error: matcher `m9999` not found. -/
theorem adhoc_error_not_surfaced :
    ((sampleModel.AddDef 'm' "m9999" "r.sub ==").1.BuildMatcher "m9999").2 =
      some (Error.other "ExprSyntax") ∧
    (sampleEnforcer.EnforceWithMatcherAndKeys "r.sub ==" "r" "e"
        ["alice", "data1", "read"]).2.err = some (Error.MATCHER_NOT_FOUND "m9999") ∧
    (sampleEnforcer.FilterWithMatcherAndKeys "r.sub ==" "r"
        ["alice", "data1", "read"]).2.2 = some (Error.MATCHER_NOT_FOUND "m9999") ∧
    Error.MATCHER_NOT_FOUND "m9999" ≠ Error.other "ExprSyntax" := by
  refine ⟨by decide, by decide, by decide, by decide⟩

/-- C9 (amended).  `EnforceWithMatcherAndKeys` and
`FilterWithMatcherAndKeys` drop the results of `AddDef` and `BuildMatcher`:
their results are those of `EnforceWithKeys` and `FilterWithKeys` for the
key `m9999` on the model the two calls leave.  When the compiler rejects
the matcher text, `BuildMatcher` returns the error of the compiler, and the
two functions return what the keyed calls return on the enforcer as it was
before the call, computed without the rejected text: the matcher-not-found
error for `m9999`, with `false` and with the empty list, when the model
held no matcher `m9999`.  When the compiler accepts the text and the
request definition and the effector are present, the result is that of
`enforce` with the compiled matcher.  In every case the definition `m9999`
is not in the definition set of the model the call leaves behind. -/
theorem adhoc_matcher_errors_dropped (e : Enforcer) (text rKey eKey : String)
    (rvals : List Value) :
    ((e.EnforceWithMatcherAndKeys text rKey eKey rvals).2 =
        Enforcer.EnforceWithKeys
          { e with model := ((e.model.AddDef 'm' "m9999" text).1.BuildMatcher "m9999").1 }
          "m9999" rKey eKey rvals ∧
      (e.FilterWithMatcherAndKeys text rKey rvals).2 =
        Enforcer.FilterWithKeys
          { e with model := ((e.model.AddDef 'm' "m9999" text).1.BuildMatcher "m9999").1 }
          "m9999" rKey rvals) ∧
    (∀ err, e.model.compile text = Except.error err →
      ((e.model.AddDef 'm' "m9999" text).1.BuildMatcher "m9999").2 = some err ∧
      (e.EnforceWithMatcherAndKeys text rKey eKey rvals).2 =
        e.EnforceWithKeys "m9999" rKey eKey rvals ∧
      (e.FilterWithMatcherAndKeys text rKey rvals).2 =
        e.FilterWithKeys "m9999" rKey rvals) ∧
    (∀ err, e.model.GetMatcher "m9999" = none → e.model.compile text = Except.error err →
      (e.EnforceWithMatcherAndKeys text rKey eKey rvals).2.ok = false ∧
      (e.EnforceWithMatcherAndKeys text rKey eKey rvals).2.err =
        some (Error.MATCHER_NOT_FOUND "m9999") ∧
      (e.FilterWithMatcherAndKeys text rKey rvals).2 =
        ([], some (Error.MATCHER_NOT_FOUND "m9999"))) ∧
    (∀ mt rDef effector, e.model.compile text = Except.ok mt →
      e.model.GetRequestDef rKey = some rDef → e.model.GetEffector eKey = some effector →
      ((e.model.AddDef 'm' "m9999" text).1.BuildMatcher "m9999").2 = none ∧
      (e.EnforceWithMatcherAndKeys text rKey eKey rvals).2 =
        e.enforce mt rDef effector rvals ∧
      (e.FilterWithMatcherAndKeys text rKey rvals).2 =
        (mt.yields rDef rvals, mt.rangeError rDef rvals)) ∧
    (e.EnforceWithMatcherAndKeys text rKey eKey rvals).1.model.defs.lookup
      ('m', "m9999") = none ∧
    (e.FilterWithMatcherAndKeys text rKey rvals).1.model.defs.lookup
      ('m', "m9999") = none := by
  have hfail : ∀ err, e.model.compile text = Except.error err →
      (e.EnforceWithMatcherAndKeys text rKey eKey rvals).2 =
        e.EnforceWithKeys "m9999" rKey eKey rvals ∧
      (e.FilterWithMatcherAndKeys text rKey rvals).2 =
        e.FilterWithKeys "m9999" rKey rvals := by
    intro err hc
    have hb := Model.BuildMatcher_rejected e.model "m9999" text err hc
    constructor
    · simp only [EnforceWithMatcherAndKeys, hb]
      rw [Model.AddDef_matcher]
      rfl
    · simp only [FilterWithMatcherAndKeys, hb]
      rw [Model.AddDef_matcher]
      rfl
  refine ⟨⟨rfl, rfl⟩, ?_, ?_, ?_, ?_, ?_⟩
  · intro err hc
    have hb := Model.BuildMatcher_rejected e.model "m9999" text err hc
    exact ⟨by rw [hb], (hfail err hc).1, (hfail err hc).2⟩
  · intro err hm hc
    rw [(hfail err hc).1, (hfail err hc).2]
    refine ⟨?_, ?_, ?_⟩
    · simp only [EnforceWithKeys, hm]
    · simp only [EnforceWithKeys, hm]
    · simp only [FilterWithKeys, RangeMatchesWithKeys, hm]
  · intro mt rd ef hc hr he
    have hb := Model.BuildMatcher_accepted e.model "m9999" text mt hc
    have hg : ({ (e.model.AddDef 'm' "m9999" text).1 with
        matchers := e.model.matchers.insert "m9999" mt } : Model).GetMatcher "m9999" =
        some mt := by
      simp [Model.GetMatcher, Finmap.lookup_insert]
    have hr2 : ({ (e.model.AddDef 'm' "m9999" text).1 with
        matchers := e.model.matchers.insert "m9999" mt } : Model).GetRequestDef rKey =
        some rd := by
      rw [Model.AddDef_matcher]; exact hr
    have he2 : ({ (e.model.AddDef 'm' "m9999" text).1 with
        matchers := e.model.matchers.insert "m9999" mt } : Model).GetEffector eKey =
        some ef := by
      rw [Model.AddDef_matcher]; exact he
    refine ⟨by rw [hb], ?_, ?_⟩
    · simp only [EnforceWithMatcherAndKeys, hb, EnforceWithKeys, hg, hr2, he2]
      rfl
    · simp only [FilterWithMatcherAndKeys, hb, FilterWithKeys, RangeMatchesWithKeys, hg,
        hr2, RangeMatches, Model.RangeMatches, Matcher.rangeFrom_collect, List.nil_append,
        Matcher.yields, Matcher.rangeError]
  · exact Model.defs_RemoveDef _ _ _
  · exact Model.defs_RemoveDef _ _ _

/-- C9 (amended), on two sample enforcers whose compiler rejects every
text.  On the sample enforcer, which holds no matcher `m9999`, the caller
gets the matcher-not-found error.  On the enforcer that holds a matcher
`m9999` from an earlier call, the caller gets the decision and the rules
of that matcher, with a nil error. -/
theorem adhoc_matcher_errors_dropped_witness :
    ((sampleEnforcer.EnforceWithMatcherAndKeys "r.sub ==" "r" "e"
        ["alice", "data1", "read"]).2.err = some (Error.MATCHER_NOT_FOUND "m9999") ∧
      (sampleEnforcer.FilterWithMatcherAndKeys "r.sub ==" "r"
        ["alice", "data1", "read"]).2 = ([], some (Error.MATCHER_NOT_FOUND "m9999"))) ∧
    ((staleEnforcer.EnforceWithMatcherAndKeys "r.sub ==" "r" "e"
        ["alice", "data1", "read"]).2.ok = true ∧
      (staleEnforcer.EnforceWithMatcherAndKeys "r.sub ==" "r" "e"
        ["alice", "data1", "read"]).2.err = none ∧
      (staleEnforcer.FilterWithMatcherAndKeys "r.sub ==" "r"
        ["alice", "data1", "read"]).2 = ([ruleDeny, ruleA, ruleW], none)) :=
  have h := (adhoc_matcher_errors_dropped sampleEnforcer "r.sub ==" "r" "e"
    ["alice", "data1", "read"]).2.2.1 (Error.other "ExprSyntax")
    (Finmap.lookup_eq_none.mpr (by decide)) rfl
  have hs := (adhoc_matcher_errors_dropped staleEnforcer "r.sub ==" "r" "e"
    ["alice", "data1", "read"]).2.1 (Error.other "ExprSyntax") rfl
  ⟨⟨h.2.1, h.2.2⟩,
    ⟨by rw [hs.2.1]; decide, by rw [hs.2.1]; decide, by rw [hs.2.2]; decide⟩⟩

/-- With a path as adapter argument and a policy file that loads,
`NewEnforcer` without options returns an enforcer whose adapter, and whose
storage controller adapter, is nil. -/
theorem NewEnforcer_with_path (w : World) (m m1 : Model) (p : String)
    (h : (NewFileAdapter p).LoadPolicy w m = (m1, none)) :
    NewEnforcer w (ModelArg.pointer m) (AdapterArg.path p) [] =
      Outcome.returns (Except.ok
        { model := m1, adapter := none,
          sc := some { adapter := none, enabled := w.storageEnabled, autosave := false } }) := by
  simp [NewEnforcer, newEnforcerWithModel, h, applyOptions, SetAdapter,
    NewStorageController]

/-- With an adapter as adapter argument, `NewEnforcer` without options
returns an enforcer that uses this adapter. -/
theorem NewEnforcer_with_adapter (w : World) (m : Model) (a : Adapter) :
    NewEnforcer w (ModelArg.pointer m) (AdapterArg.adapter a) [] =
      Outcome.returns (Except.ok
        { model := m, adapter := some a,
          sc := some { adapter := some a, enabled := w.storageEnabled,
                       autosave := false } }) := by
  simp [NewEnforcer, newEnforcerWithModel, applyOptions, SetAdapter, NewStorageController]

/-- With any other adapter argument, `NewEnforcer` without options returns
an enforcer that uses the no-op adapter and whose storage is disabled. -/
theorem NewEnforcer_with_other (w : World) (m : Model) :
    NewEnforcer w (ModelArg.pointer m) AdapterArg.other [] =
      Outcome.returns (Except.ok
        { model := m, adapter := some Adapter.noop,
          sc := some { adapter := some Adapter.noop, enabled := false,
                       autosave := false } }) := by
  simp [NewEnforcer, newEnforcerWithModel, applyOptions, SetAdapter, NewStorageController,
    OptionStorage]

/-- When the options end with `OptionStorage(false)` and all of them
succeed, the storage of the resulting enforcer is disabled. -/
theorem applyOptions_storage_off (options : List EnforcerOption) :
    ∀ (e e1 : Enforcer),
      applyOptions (options ++ [OptionStorage false]) e = Outcome.returns (Except.ok e1) →
      ∃ sc, e1.sc = some sc ∧ sc.enabled = false := by
  induction options with
  | nil =>
    intro e e1 h
    cases hsc : e.sc with
    | none => simp [applyOptions, OptionStorage, hsc] at h
    | some sc =>
      simp only [List.nil_append, applyOptions, OptionStorage, hsc] at h
      injection h with h
      injection h with h
      subst h
      exact ⟨_, rfl, rfl⟩
  | cons o rest ih =>
    intro e e1 h
    rw [List.cons_append] at h
    unfold applyOptions at h
    cases ho : o e with
    | nilDereference => simp [ho] at h
    | returns p =>
      obtain ⟨e2, err⟩ := p
      cases err with
      | some err => simp [ho] at h
      | none =>
        simp only [ho] at h
        exact ih e2 e1 h

/-- With any other adapter argument and any options, an enforcer that
`NewEnforcer` returns has its storage disabled. -/
theorem NewEnforcer_other_storage_off (w : World) (m : Model)
    (options : List EnforcerOption) (e1 : Enforcer)
    (h : NewEnforcer w (ModelArg.pointer m) AdapterArg.other options =
      Outcome.returns (Except.ok e1)) :
    ∃ sc, e1.sc = some sc ∧ sc.enabled = false := by
  simp only [NewEnforcer, newEnforcerWithModel] at h
  exact applyOptions_storage_off options _ e1 h

/-- C10.  In the sample world the policy file `policy.csv` loads without
error, and `NewEnforcer` with this path as adapter argument returns an
enforcer whose adapter is nil, not the file adapter of the path; its
storage controller holds the nil adapter too, and `LoadPolicy` and
`SavePolicy` of this enforcer dereference nil. -/
theorem NewEnforcer_path_adapter_nil :
    ((NewFileAdapter "policy.csv").LoadPolicy sampleWorld sampleModel).2 = none ∧
    ∃ e, NewEnforcer sampleWorld (ModelArg.pointer sampleModel)
        (AdapterArg.path "policy.csv") [] = Outcome.returns (Except.ok e) ∧
      e.adapter = none ∧
      e.sc = some { adapter := none, enabled := true, autosave := false } ∧
      e.LoadPolicy sampleWorld = Outcome.nilDereference ∧
      e.SavePolicy = Outcome.nilDereference :=
  ⟨rfl, _, rfl, rfl, rfl, rfl, rfl⟩

end Enforcer

namespace Policy

theorem columnsOk_NewPolicy (d : PolicyDef) : ColumnsOk (NewPolicy d) := by
  intro k v h
  simp [NewPolicy, Finmap.lookup_empty] at h

/-- C6 (counterexample).  The empty sample store trivially satisfies the
column-count invariant; `AddRule` of a rule with one column, which the
policy definition of arity three does not admit, returns `true` and a nil
error, stores the rule, and the invariant no longer holds. -/
theorem AddRule_accepts_wrong_arity :
    ¬ samplePDef.admits ruleShort ∧
    (AddRule sampleHash store0 ruleShort).2 = (true, none) ∧
    (AddRule sampleHash store0 ruleShort).1.ruleMap.lookup (sampleHash ruleShort) =
      some ruleShort ∧
    (AddRule sampleHash store0 ruleShort).1.ruleMap ≠ store0.ruleMap ∧
    ¬ ColumnsOk (AddRule sampleHash store0 ruleShort).1 := by
  refine ⟨by decide, by decide, by decide, by decide, ?_⟩
  intro h
  have := h (sampleHash ruleShort) ruleShort (by decide)
  revert this
  decide

/-- C6 (amended).  `Policy.AddRule` performs no column-count check: it
never returns an error, and a rule whose hash is absent is stored whatever
its column count, so that adding a rule the policy definition does not
admit breaks the column-count invariant.  The invariant holds for a new
store and is preserved by `AddRule` of an admitted rule, by `RemoveRule`
and by `Clear`. -/
theorem AddRule_no_arity_check (Hash : Rule → String) (p : Policy) (r : Rule) :
    (AddRule Hash p r).2.2 = none ∧
    (Hash r ∉ p.ruleMap →
      (AddRule Hash p r).2.1 = true ∧
      (AddRule Hash p r).1.ruleMap.lookup (Hash r) = some r) ∧
    (Hash r ∉ p.ruleMap → ¬ p.pDef.admits r → ¬ ColumnsOk (AddRule Hash p r).1) ∧
    (ColumnsOk p → p.pDef.admits r → ColumnsOk (AddRule Hash p r).1) ∧
    (ColumnsOk p → ColumnsOk (RemoveRule Hash p r).1) ∧
    ColumnsOk (Clear p).1 ∧
    ColumnsOk (NewPolicy p.pDef) := by
  refine ⟨?_, ?_, ?_, ?_, ?_, ?_, columnsOk_NewPolicy _⟩
  · by_cases h : Hash r ∈ p.ruleMap
    · rw [AddRule_of_mem Hash p r h]
    · rw [AddRule_of_not_mem Hash p r h]
  · intro h
    rw [AddRule_of_not_mem Hash p r h]
    exact ⟨rfl, Finmap.lookup_insert _⟩
  · intro h hna hok
    have h1 := hok (Hash r) r (lookup_AddRule_self Hash p r h)
    rw [AddRule_of_not_mem Hash p r h] at h1
    exact hna h1
  · intro hok ha
    by_cases h : Hash r ∈ p.ruleMap
    · rw [AddRule_of_mem Hash p r h]; exact hok
    · rw [AddRule_of_not_mem Hash p r h]
      intro k v hk
      by_cases hkr : k = Hash r
      · subst hkr
        have hv : v = r := by
          have h2 : Finmap.lookup (Hash r) (Finmap.insert (Hash r) r p.ruleMap) = some v := hk
          rw [Finmap.lookup_insert] at h2
          exact (Option.some.inj h2).symm
        rw [hv]; exact ha
      · have h2 : Finmap.lookup k (Finmap.insert (Hash r) r p.ruleMap) = some v := hk
        rw [Finmap.lookup_insert_of_ne _ hkr] at h2
        exact hok k v h2
  · intro hok
    by_cases h : Hash r ∈ p.ruleMap
    · rw [RemoveRule_of_mem Hash p r h]
      intro k v hk
      by_cases hkr : k = Hash r
      · subst hkr
        have h2 : Finmap.lookup (Hash r) (Finmap.erase (Hash r) p.ruleMap) = some v := hk
        rw [Finmap.lookup_erase] at h2
        exact absurd h2 (by simp)
      · have h2 : Finmap.lookup k (Finmap.erase (Hash r) p.ruleMap) = some v := hk
        rw [Finmap.lookup_erase_ne hkr] at h2
        exact hok k v h2
    · rw [RemoveRule_of_not_mem Hash p r h]; exact hok
  · intro k v hk
    simp [Clear, EmitEvent, Finmap.lookup_empty] at hk

/-- C6 (amended), on the sample stores: the one-column rule is stored
without error in the empty store, while adding the admitted `ruleB` to the
store holding `ruleA` keeps the invariant. -/
theorem AddRule_no_arity_check_witness :
    (AddRule sampleHash store0 ruleShort).2 = (true, none) ∧
    (AddRule sampleHash store0 ruleShort).1.ruleMap.lookup (sampleHash ruleShort) =
      some ruleShort ∧
    ColumnsOk (AddRule sampleHash store1 ruleB).1 :=
  have h0 : sampleHash ruleShort ∉ store0.ruleMap := by decide
  have hok1 : ColumnsOk store1 :=
    (AddRule_no_arity_check sampleHash store0 ruleA).2.2.2.1
      (columnsOk_NewPolicy samplePDef) (by decide)
  ⟨Prod.ext ((AddRule_no_arity_check sampleHash store0 ruleShort).2.1 h0).1
      (AddRule_no_arity_check sampleHash store0 ruleShort).1,
    ((AddRule_no_arity_check sampleHash store0 ruleShort).2.1 h0).2,
    (AddRule_no_arity_check sampleHash store1 ruleB).2.2.2.1 hok1 (by decide)⟩

end Policy

end Fastac
